import Mathlib

/-!
# Verification of the row validation & normalization engine (`DataOps/cleandata.py`)

A shallow embedding of the `clean` function of `src/DataOps/cleandata.py`.

A pandas `DataFrame` is modelled as a `Table`: a list of column names plus a
list of rows, each row an association list from column names to `Cell`s.
A `Cell` is one of:
 * `Cell.na` — a missing value (`NaN` / `pd.NA` / `None`),
 * `Cell.s`  — a Python string (also pandas `string` dtype),
 * `Cell.q`  — a numeric value (exact rationals model pandas numerics),
 * `Cell.b`  — a boolean,
 * `Cell.i`  — an integer (used for the 0/1 anomaly label).

Python's `str(value)` is modelled by `pyStr`; `pandas.to_numeric` by
`parseNumL` (decimal literals with optional sign, fraction and exponent;
the special float literals `inf`/`nan` are out of scope of the rational
model — note `str()` of a missing value is `"nan"`, which fails the parse
exactly as `to_numeric` maps `NaN` to `NaN`); `str.strip()` by `pyStripL`;
`str.rstrip("^")` by `pyRstripCaretL`; `str.upper()` by `asciiUpperL`.
`df.sort_values("gtin")` is modelled as a stable ascending sort on the
string value of the `gtin` cell, and `df.drop_duplicates(subset=["gtin"],
keep="first")` by `dedupFirst`.  `df.dropna(subset=["gtin"])` raises
`KeyError` when the column is absent, which the model reflects by
returning `Except.error`.
-/

/-- One value of a dataframe cell. -/
inductive Cell where
  | na : Cell
  | s : String → Cell
  | q : ℚ → Cell
  | b : Bool → Cell
  | i : ℤ → Cell
deriving DecidableEq, Repr

/-- A row: association list from column name to cell value. -/
abbrev Row := List (String × Cell)

/-- A dataframe: column names (in order) and rows. -/
structure Table where
  cols : List String
  rows : List Row
deriving DecidableEq, Repr

/-- Cell of a row at a column; a column not listed in the row reads as missing
(in a well-formed dataframe every row lists every column of the table). -/
def getCell : Row → String → Cell
  | [], _ => Cell.na
  | (c', v) :: r, c => if c' = c then v else getCell r c

/-! ## Column definitions (module-level constants of `cleandata.py`) -/

def ID_COL : List String := ["gtin"]

def TEXT_COLS : List String := ["category_name", "product_name", "ingredients_text"]

def NUTRIENT_COLS : List String :=
  ["calories", "total_fat", "sat_fat", "trans_fat", "unsat_fat",
   "cholesterol", "sodium", "carbs", "dietary_fiber",
   "total_sugars", "added_sugars", "protein", "potassium"]

def TAG_COLS : List String :=
  ["is_whole_grain", "is_omega_three", "is_healthy_oils", "is_healthy_fats",
   "is_seed_oil", "is_refined_grains", "is_deep_fried", "is_sugars_added",
   "is_artificial_sweeteners", "is_artificial_flavors",
   "is_artificial_preservatives", "is_artificial_colors",
   "is_artificial_red_color", "is_ph_oil", "is_aspartame",
   "is_acesulfame_potassium", "is_saccharin", "is_corn_syrup",
   "is_brominated_vegetable_oil", "is_potassium_bromate",
   "is_titanium_dioxide", "is_phosphate_additives", "is_polysorbate60",
   "is_mercury_fish", "is_caregeenan", "is_natural_non_kcal_sweeteners",
   "is_natural_additives", "is_unspecific_ingredient", "is_propellant",
   "is_starch", "is_active_live_cultures"]

def FLAG_COLS : List String :=
  ["flag_calorie_mismatch", "flag_fat_mismatch", "flag_carb_mismatch",
   "flag_sugar_mismatch", "flag_missing_added_sugars",
   "flag_extra_added_sugars", "flag_low_sodium", "flag_high_sodium",
   "flag_negative_values", "flag_type_error"]

def COLS_TO_KEEP : List String :=
  ID_COL ++ TEXT_COLS ++ NUTRIENT_COLS ++ TAG_COLS ++ FLAG_COLS ++ ["label_is_anomaly"]

/-! ## String helpers modelling Python string operations -/

/-- Whitespace characters stripped by Python's `str.strip()` (the ASCII ones:
space, tab, newline, carriage return, vertical tab, form feed). -/
def pyWS (c : Char) : Bool :=
  decide (c = ' ' ∨ c = '\t' ∨ c = '\n' ∨ c = '\r' ∨ c.toNat = 11 ∨ c.toNat = 12)

/-- Python `str.strip()` on a character list. -/
def pyStripL (cs : List Char) : List Char :=
  ((cs.dropWhile pyWS).reverse.dropWhile pyWS).reverse

/-- Python `str.rstrip("^")`: drop every trailing caret. -/
def pyRstripCaretL (cs : List Char) : List Char :=
  (cs.reverse.dropWhile (fun c => decide (c = '^'))).reverse

/-- Python `str.upper()` restricted to ASCII letters. -/
def asciiUpperL (cs : List Char) : List Char :=
  cs.map (fun c => if 'a' ≤ c ∧ c ≤ 'z' then Char.ofNat (c.toNat - 32) else c)

/-- `.str.endswith("^")` on a character list. -/
def endsCaretB (cs : List Char) : Bool :=
  decide (cs.getLast? = some '^')

/-! ## Decimal rendering of rationals (Python `str()` of a number)

`decDigit`/`natDigits` render a natural number in base 10, most significant
digit first.  `qChars` renders a rational with a finite decimal expansion as
a plain decimal literal (sign, digits, at most one point), which is how every
numeric value produced by `clean` prints;  rationals without a finite decimal
expansion (never produced by the pipeline) get a fraction fallback. -/

def decDigit : ℕ → Char
  | 0 => '0' | 1 => '1' | 2 => '2' | 3 => '3' | 4 => '4'
  | 5 => '5' | 6 => '6' | 7 => '7' | 8 => '8' | 9 => '9'
  | _ => '0'

def natDigitsAux : ℕ → ℕ → List Char
  | 0, _ => []
  | fuel + 1, n =>
      if n < 10 then [decDigit n]
      else natDigitsAux fuel (n / 10) ++ [decDigit (n % 10)]

def natDigits (n : ℕ) : List Char := natDigitsAux (n + 1) n

/-- Smallest exponent `k ≤ d` with `d ∣ 10 ^ k`, when one exists. -/
def pow10Exp (d : ℕ) : Option ℕ :=
  (List.range (d + 1)).find? (fun k => decide (d ∣ 10 ^ k))

/-- The unsigned digit body of the decimal rendering: the digits of
`|num| * (10 ^ k / den)` left-padded to more than `k` digits, with the
decimal point inserted `k` places from the right (omitted when `k = 0`). -/
def qBody (q : ℚ) (k : ℕ) : List Char :=
  let m := q.num.natAbs * (10 ^ k / q.den)
  let ds := natDigits m
  let ds' := List.replicate (k + 1 - ds.length) '0' ++ ds
  if k = 0 then ds'
  else ds'.take (ds'.length - k) ++ '.' :: ds'.drop (ds'.length - k)

def qChars (q : ℚ) : List Char :=
  match pow10Exp q.den with
  | some k => (if q.num < 0 then ['-'] else []) ++ qBody q k
  | none => (toString q.num).data ++ '/' :: (toString q.den).data

def qStr (q : ℚ) : String := String.mk (qChars q)

/-- Python `str(value)` of a cell, as the engine sees it (`astype(str)`):
missing values print as `"nan"` (for pandas `string`-dtype columns the
rendering is `"<NA>"`; neither ends in a caret, strips to empty, or parses
as a number, so one uniform rendering is used). -/
def pyStr : Cell → String
  | Cell.na => "nan"
  | Cell.s v => v
  | Cell.q v => qStr v
  | Cell.b true => "True"
  | Cell.b false => "False"
  | Cell.i n => toString n

/-! ## Decimal parsing (`pandas.to_numeric(..., errors="coerce")`) -/

def digitVal (c : Char) : ℕ := c.toNat - 48

def digitsVal (l : List Char) : ℕ := l.foldl (fun a c => a * 10 + digitVal c) 0

def spanDigits (cs : List Char) : List Char × List Char :=
  (cs.takeWhile Char.isDigit, cs.dropWhile Char.isDigit)

/-- Leading sign: `true` means negative. -/
def parseSign : List Char → Bool × List Char
  | '-' :: r => (true, r)
  | '+' :: r => (false, r)
  | r => (false, r)

/-- Exponent part after `e`/`E`: optionally signed digits, all consumed. -/
def parseExpL (cs : List Char) : Option ℤ :=
  match cs with
  | [] => none
  | _ =>
      let p := parseSign cs
      let d := spanDigits p.2
      if d.1 = [] ∨ d.2 ≠ [] then none
      else some (if p.1 then -(digitsVal d.1 : ℤ) else (digitsVal d.1 : ℤ))

/-- Unsigned mantissa: digits with at most one decimal point, at least one
digit in total; returns its value and the unconsumed remainder. -/
def parseMant (cs : List Char) : Option (ℚ × List Char) :=
  let a := spanDigits cs
  match a.2 with
  | '.' :: r2 =>
      let b := spanDigits r2
      if a.1.length + b.1.length = 0 then none
      else some ((digitsVal (a.1 ++ b.1) : ℚ) / 10 ^ b.1.length, b.2)
  | _ => if a.1 = [] then none else some ((digitsVal a.1 : ℚ), a.2)

/-- `pd.to_numeric(errors="coerce")` on one string (already stripped by the
pipeline): sign, decimal mantissa, optional exponent; `none` models `NaN`. -/
def parseNumL (cs : List Char) : Option ℚ :=
  let p := parseSign cs
  match parseMant p.2 with
  | none => none
  | some (m, rest) =>
      match rest with
      | [] => some (if p.1 then -m else m)
      | c :: r =>
          if c = 'e' ∨ c = 'E' then
            match parseExpL r with
            | some e => some ((if p.1 then -m else m) * (10 : ℚ) ^ e)
            | none => none
          else none

/-! ## The cell coercions of `clean` -/

/-- `astype("string")` on identifier/text columns: missing stays missing,
anything else becomes its string representation. -/
def toStringDtype : Cell → Cell
  | Cell.na => Cell.na
  | Cell.s v => Cell.s v
  | c => Cell.s (pyStr c)

/-- Nutrient coercion (`cleandata.py` lines 71–76): `astype(str)`, strip all
trailing carets, strip whitespace, `to_numeric(errors="coerce")`, then
`fillna(-1)`. -/
def nutrientCoerce (cell : Cell) : Cell :=
  Cell.q ((parseNumL (pyStripL (pyRstripCaretL (pyStr cell).data))).getD (-1))

/-- Tag/Flag coercion (`cleandata.py` lines 79–90): `astype(str)`,
`.str.upper()`, exact lookup in `{TRUE, FALSE, 1, 0}`, unmapped values
`fillna(False)`. -/
def pyBool (cell : Cell) : Bool :=
  let u := asciiUpperL (pyStr cell).data
  if u = "TRUE".data then true
  else if u = "1".data then true
  else if u = "FALSE".data then false
  else if u = "0".data then false
  else false

/-- `.astype(str).str.strip().str.endswith("^")` of one cell. -/
def hasCaretCell (cell : Cell) : Bool :=
  endsCaretB (pyStripL (pyStr cell).data)

/-! ## The row-wise part of `clean` -/

/-- `keep = [c for c in COLS_TO_KEEP if c in df.columns]` (line 51). -/
def keepCols (cols : List String) : List String :=
  COLS_TO_KEEP.filter (fun c => c ∈ cols)

/-- Columns of the cleaned frame: the kept schema columns plus the
`label_is_anomaly` column appended by the assignment at line 62 when it was
not among the inputs. -/
def outCols (cols : List String) : List String :=
  if "label_is_anomaly" ∈ keepCols cols then keepCols cols
  else keepCols cols ++ ["label_is_anomaly"]

/-- Column assignment `df[c] = v`: replace in place if the column exists,
otherwise append it at the end. -/
def setEntry (r : Row) (c : String) (v : Cell) : Row :=
  if r.any (fun p => decide (p.1 = c)) then
    r.map (fun p => if p.1 = c then (c, v) else p)
  else r ++ [(c, v)]

/-- The per-row anomaly fold of lines 62–68: starting from 0, OR in the caret
test of every Text/Nutrient/Tag column present in the frame. -/
def rowAnomalyB (keep : List String) (st : Row) : Bool :=
  (TEXT_COLS ++ NUTRIENT_COLS ++ TAG_COLS).foldl
    (fun acc c => if c ∈ keep then acc || hasCaretCell (getCell st c) else acc) false

/-- Column projection `df = df[keep]` on one row (line 52). -/
def projectRow (cols : List String) (r0 : Row) : Row :=
  (keepCols cols).map (fun c => (c, getCell r0 c))

/-- String coercion of identifier and text columns (lines 56–58). -/
def stringCoerceRow (r : Row) : Row :=
  r.map (fun p => if p.1 ∈ ID_COL ++ TEXT_COLS then (p.1, toStringDtype p.2) else p)

/-- Label derivation and assignment (lines 61–68). -/
def labelRow (keep : List String) (r : Row) : Row :=
  setEntry r "label_is_anomaly" (Cell.i (if rowAnomalyB keep r then 1 else 0))

/-- Nutrient coercion pass (lines 71–76). -/
def nutrientRow (r : Row) : Row :=
  r.map (fun p => if p.1 ∈ NUTRIENT_COLS then (p.1, nutrientCoerce p.2) else p)

/-- Tag/Flag coercion pass (lines 79–90). -/
def boolRow (r : Row) : Row :=
  r.map (fun p => if p.1 ∈ TAG_COLS ++ FLAG_COLS then (p.1, Cell.b (pyBool p.2)) else p)

/-- All element-wise stages of `clean` on one row: projection onto the kept
columns, string coercion of identifier/text columns, anomaly label
derivation from the pre-coercion values, nutrient coercion, tag/flag
coercion. -/
def cleanRow (cols : List String) (r0 : Row) : Row :=
  boolRow (nutrientRow (labelRow (keepCols cols) (stringCoerceRow (projectRow cols r0))))

/-! ## The filtering, sorting and deduplication stages -/

/-- Row predicate of `df.dropna(subset=["gtin"])`. -/
def gtinPresent (r : Row) : Bool :=
  decide (getCell r "gtin" ≠ Cell.na)

/-- Row predicate of lines 103–106: `notna` and non-blank after `strip()`. -/
def ingrRowOk (r : Row) : Bool :=
  decide (getCell r "ingredients_text" ≠ Cell.na ∧
    pyStripL (pyStr (getCell r "ingredients_text")).data ≠ [])

/-- Sort key of `df.sort_values("gtin")` (post-filter every `gtin` cell is a
string cell). -/
def sortKey (r : Row) : String := pyStr (getCell r "gtin")

def rowLe (r₁ r₂ : Row) : Prop := (sortKey r₁).data ≤ (sortKey r₂).data

instance : DecidableRel rowLe := fun r₁ r₂ =>
  inferInstanceAs (Decidable ((sortKey r₁).data ≤ (sortKey r₂).data))

instance : IsTotal Row rowLe := ⟨fun r₁ r₂ => le_total (sortKey r₁).data (sortKey r₂).data⟩

instance : IsTrans Row rowLe := ⟨fun _ _ _ h₁ h₂ => le_trans h₁ h₂⟩

/-- One admissible execution of `df.sort_values("gtin")`, used to make
`clean` executable.  `sort_values` with its default `kind='quicksort'` is an
*unstable* sort: pandas only promises some permutation of the rows that is
ascending in the key, and leaves the relative order of rows with equal gtins
unspecified.  `insertionSort` is one refinement of that contract (a stable
one); properties that depend on the tie order are stated against the contract
itself (`SortedPerm` below), not against this refinement. -/
def sortRows (l : List Row) : List Row := List.insertionSort rowLe l

/-- `df.drop_duplicates(subset=["gtin"], keep="first")`: keep the first row
in current order for each gtin value. -/
def dedupFirst : List Row → List Cell → List Row
  | [], _ => []
  | r :: rs, seen =>
      let k := getCell r "gtin"
      if k ∈ seen then dedupFirst rs seen
      else r :: dedupFirst rs (k :: seen)

/-! ## The `clean` function -/

def projectedRows (df : Table) : List Row := df.rows.map (cleanRow df.cols)

def gtinFiltered (df : Table) : List Row := (projectedRows df).filter gtinPresent

def ingrFiltered (df : Table) : List Row :=
  if "ingredients_text" ∈ outCols df.cols then (gtinFiltered df).filter ingrRowOk
  else gtinFiltered df

def sortedSurvivors (df : Table) : List Row := sortRows (ingrFiltered df)

def finalRows (df : Table) : List Row := dedupFirst (sortedSurvivors df) []

/-- The documented contract of `df.sort_values("gtin")` at line 112: the
result is *some* permutation of the filtered rows that is ascending in the
gtin key.  With the default `kind='quicksort'` the sort is unstable, so
nothing beyond this is guaranteed — in particular not the relative order of
rows sharing a gtin.  `sortRows` realises one admissible output. -/
def SortedPerm (df : Table) (l : List Row) : Prop :=
  l.Perm (ingrFiltered df) ∧ l.Sorted rowLe

instance (df : Table) (l : List Row) : Decidable (SortedPerm df l) :=
  inferInstanceAs (Decidable (l.Perm (ingrFiltered df) ∧ l.Sorted rowLe))

/-- Result of `clean`: the cleaned table, the six reported counters and the
printed report (modelled as a list of lines, empty unless `verbose`). -/
structure CleanResult where
  table : Table
  initialCount : ℕ
  removedNoGtin : ℕ
  removedEmptyIngredients : ℕ
  removedDuplicates : ℕ
  finalCount : ℕ
  totalRemoved : ℕ
  log : List String
deriving DecidableEq, Repr

instance exceptDecEq {ε α : Type} [DecidableEq ε] [DecidableEq α] :
    DecidableEq (Except ε α) := fun a b =>
  match a, b with
  | Except.ok x, Except.ok y =>
      if h : x = y then Decidable.isTrue (by rw [h])
      else Decidable.isFalse (fun hc => h (by cases hc; rfl))
  | Except.error x, Except.error y =>
      if h : x = y then Decidable.isTrue (by rw [h])
      else Decidable.isFalse (fun hc => h (by cases hc; rfl))
  | Except.ok _, Except.error _ => Decidable.isFalse (fun hc => Except.noConfusion hc)
  | Except.error _, Except.ok _ => Decidable.isFalse (fun hc => Except.noConfusion hc)

/-- `clean(df, verbose)` of `cleandata.py`.  `dropna(subset=["gtin"])` raises
`KeyError` whenever the `gtin` column is absent from the frame, modelled by
the `Except.error` branch; otherwise every stage is total. -/
def clean (df : Table) (verbose : Bool) : Except String CleanResult :=
  let initialCount := df.rows.length
  let cols1 := outCols df.cols
  if "gtin" ∈ cols1 then
    let beforeGtin := (projectedRows df).length
    let afterGtin := gtinFiltered df
    let removedNoGtin := beforeGtin - afterGtin.length
    let afterIngr := ingrFiltered df
    let removedEmptyIngredients := afterGtin.length - afterIngr.length
    let beforeDup := afterIngr.length
    let final := finalRows df
    let removedDuplicates := beforeDup - final.length
    let finalCount := final.length
    let totalRemoved := initialCount - finalCount
    Except.ok
      { table := { cols := cols1, rows := final }
        initialCount := initialCount
        removedNoGtin := removedNoGtin
        removedEmptyIngredients := removedEmptyIngredients
        removedDuplicates := removedDuplicates
        finalCount := finalCount
        totalRemoved := totalRemoved
        log :=
          if verbose then
            ["  Initial rows: " ++ toString initialCount,
             "  Removed (no GTIN): " ++ toString removedNoGtin,
             "  Removed (empty ingredients_text): " ++ toString removedEmptyIngredients,
             "  Removed (duplicate GTINs): " ++ toString removedDuplicates,
             "  Final rows: " ++ toString finalCount,
             "  Total removed: " ++ toString totalRemoved]
          else [] }
  else
    Except.error "KeyError: ['gtin'] not found in axis"

/-! ## Auxiliary definitions used by the verification

`cellF` is the closed form of `cleanRow`: the value the pipeline assigns to
each output column, stated directly against the raw row.  The `raw*`/`spec*`
definitions are the claim-side formulations (written from the wording of the
specification) that the code-side definitions are compared with. -/

/-- The anomaly fold of lines 62–68, restated against the raw (pre-string-
coercion) row; `cleanRow` is proved to compute exactly this. -/
def rawAnomalyB (cols : List String) (r : Row) : Bool :=
  (TEXT_COLS ++ NUTRIENT_COLS ++ TAG_COLS).foldl
    (fun acc c => if c ∈ cols then acc || hasCaretCell (getCell r c) else acc) false

/-- Claim side: some raw Text/Nutrient/Tag cell of the row, taken as its
string representation and trimmed of surrounding whitespace, ends with the
caret character. -/
def RawAnomaly (cols : List String) (r : Row) : Prop :=
  ∃ c, c ∈ TEXT_COLS ++ NUTRIENT_COLS ++ TAG_COLS ∧ c ∈ cols ∧
    (pyStripL (pyStr (getCell r c)).data).getLast? = some '^'

instance (cols : List String) (r : Row) : Decidable (RawAnomaly cols r) :=
  inferInstanceAs (Decidable (∃ c ∈ TEXT_COLS ++ NUTRIENT_COLS ++ TAG_COLS,
    c ∈ cols ∧ (pyStripL (pyStr (getCell r c)).data).getLast? = some '^'))

/-- Closed form of the per-row pipeline: the value of each output column of
the cleaned row, in terms of the raw row. -/
def cellF (cols : List String) (r : Row) (c : String) : Cell :=
  if c = "label_is_anomaly" then Cell.i (if rawAnomalyB cols r then 1 else 0)
  else if c ∈ NUTRIENT_COLS then nutrientCoerce (getCell r c)
  else if c ∈ TAG_COLS ++ FLAG_COLS then Cell.b (pyBool (getCell r c))
  else if c ∈ ID_COL ++ TEXT_COLS then toStringDtype (getCell r c)
  else getCell r c

/-- Replace the `label_is_anomaly` cell of an already-cleaned row by the
label recomputed from the row's current (coerced) cell values — this is
everything a second application of `clean` changes. -/
def relabelRow (cols2 : List String) (o : Row) : Row :=
  o.map (fun p => if p.1 = "label_is_anomaly"
    then (p.1, Cell.i (if rawAnomalyB cols2 o then 1 else 0)) else p)

/-- Case-insensitive string equality, as the claim about boolean coercion
states it. -/
def ciEqB (a b : String) : Bool :=
  decide (asciiUpperL a.data = asciiUpperL b.data)

/-- Claim side of the Tag/Flag coercion: values case-insensitively equal to
`TRUE` or `1` map to `true`; `FALSE` or `0` to `false`; anything else,
including a missing cell, to `false`. -/
def specBoolCell (cell : Cell) : Bool :=
  match cell with
  | Cell.na => false
  | c =>
      if ciEqB (pyStr c) "TRUE" ∨ ciEqB (pyStr c) "1" then true
      else if ciEqB (pyStr c) "FALSE" ∨ ciEqB (pyStr c) "0" then false
      else false

/-- Claim side of the nutrient invariant as C2 words it: the output cell is
numeric and is either a genuine non-negative reading — the decimal parse of
the caret-stripped, whitespace-trimmed raw cell — or the sentinel `-1`. -/
def SpecC2Cell (raw out : Cell) : Prop :=
  ∃ v : ℚ, out = Cell.q v ∧
    (v = -1 ∨ (0 ≤ v ∧ parseNumL (pyStripL (pyRstripCaretL (pyStr raw).data)) = some v))

/-- Replace the cells of the `label_is_anomaly` column by arbitrary garbage
(used to state that `clean` ignores a supplied label column). -/
def overwriteLabel (df : Table) (g : Row → Cell) : Table :=
  { cols := df.cols
    rows := df.rows.map (fun r =>
      r.map (fun p => if p.1 = "label_is_anomaly" then (p.1, g r) else p)) }

/-- A rational with a finite decimal expansion: its denominator divides a
power of ten (the search of `pow10Exp` succeeds).  Every numeric value the
nutrient coercion can produce satisfies this. -/
def DecimalRep (q : ℚ) : Prop := (pow10Exp q.den).isSome = true

/-- The cleaned result, defaulting on error (used only to phrase closed
witness statements). -/
def cleanOk (df : Table) : CleanResult :=
  (clean df true).toOption.getD
    { table := { cols := [], rows := [] }
      initialCount := 0, removedNoGtin := 0, removedEmptyIngredients := 0
      removedDuplicates := 0, finalCount := 0, totalRemoved := 0, log := [] }

/-! ### Concrete tables for counterexamples and witnesses -/

/-- The scenario row of C6: `gtin="123", ingredients_text="milk^",
calories="50^"`. -/
def dfC6 : Table :=
  { cols := ["gtin", "ingredients_text", "calories"]
    rows := [[("gtin", Cell.s "123"), ("ingredients_text", Cell.s "milk^"),
              ("calories", Cell.s "50^")]] }

/-- A table whose only row carries a genuinely negative calories reading. -/
def dfC2 : Table :=
  { cols := ["gtin", "ingredients_text", "calories"]
    rows := [[("gtin", Cell.s "1"), ("ingredients_text", Cell.s "milk"),
              ("calories", Cell.s "-5")]] }

/-- A table whose only row has an empty-string (not missing) gtin. -/
def dfC4 : Table :=
  { cols := ["gtin", "ingredients_text"]
    rows := [[("gtin", Cell.s ""), ("ingredients_text", Cell.s "milk")]] }

/-- A table whose only caret marker sits in a nutrient column, so the first
pass strips it. -/
def dfC5 : Table :=
  { cols := ["gtin", "ingredients_text", "calories"]
    rows := [[("gtin", Cell.s "1"), ("ingredients_text", Cell.s "milk"),
              ("calories", Cell.s "50^")]] }

/-- An input with rows = [] and no `gtin` column: empty, yet `dropna` on the
missing column still raises. -/
def dfC8 : Table := { cols := ["calories"], rows := [] }

/-- A two-row table with a duplicate identifier, the duplicate pair out of
sorted position. -/
def dfC3 : Table :=
  { cols := ["gtin", "ingredients_text"]
    rows := [[("gtin", Cell.s "5"), ("ingredients_text", Cell.s "first5")],
             [("gtin", Cell.s "3"), ("ingredients_text", Cell.s "only3")],
             [("gtin", Cell.s "5"), ("ingredients_text", Cell.s "second5")]] }

/-- An alternative admissible output of the unstable sort on `dfC3`'s
filtered rows: still ascending by gtin, but with the two gtin-`"5"` rows in
the opposite tie order (the filtered rows are `[first5, only3, second5]`;
this list is `[only3, second5, first5]`). -/
def permC3 : List Row :=
  (ingrFiltered dfC3).drop 1 ++ (ingrFiltered dfC3).take 1

/-- A table with a Tag column holding an unparseable boolean. -/
def dfC7 : Table :=
  { cols := ["gtin", "ingredients_text", "is_seed_oil"]
    rows := [[("gtin", Cell.s "2"), ("ingredients_text", Cell.s "oil"),
              ("is_seed_oil", Cell.s "weird")]] }

/-- A table that supplies a garbage `label_is_anomaly` column. -/
def dfC10 : Table :=
  { cols := ["gtin", "ingredients_text", "label_is_anomaly"]
    rows := [[("gtin", Cell.s "9"), ("ingredients_text", Cell.s "water"),
              ("label_is_anomaly", Cell.s "garbage^")]] }

/-! # Theorems

## Schema facts (discharged by evaluation of the concrete column lists) -/

theorem caretCols_subset_keep :
    ∀ c ∈ TEXT_COLS ++ NUTRIENT_COLS ++ TAG_COLS, c ∈ COLS_TO_KEEP := by decide

theorem nutrient_not_idtext : ∀ c ∈ NUTRIENT_COLS, c ∉ ID_COL ++ TEXT_COLS := by decide

theorem nutrient_not_bool : ∀ c ∈ NUTRIENT_COLS, c ∉ TAG_COLS ++ FLAG_COLS := by decide

theorem nutrient_not_label : ∀ c ∈ NUTRIENT_COLS, c ≠ "label_is_anomaly" := by decide

theorem bool_not_idtext : ∀ c ∈ TAG_COLS ++ FLAG_COLS, c ∉ ID_COL ++ TEXT_COLS := by decide

theorem bool_not_label : ∀ c ∈ TAG_COLS ++ FLAG_COLS, c ≠ "label_is_anomaly" := by decide

theorem idtext_not_label : ∀ c ∈ ID_COL ++ TEXT_COLS, c ≠ "label_is_anomaly" := by decide

theorem idtext_not_nutrient : ∀ c ∈ ID_COL ++ TEXT_COLS, c ∉ NUTRIENT_COLS := by decide

theorem label_not_idtext : "label_is_anomaly" ∉ ID_COL ++ TEXT_COLS := by decide

theorem label_not_nutrient : "label_is_anomaly" ∉ NUTRIENT_COLS := by decide

theorem label_not_bool : "label_is_anomaly" ∉ TAG_COLS ++ FLAG_COLS := by decide

theorem keep_cases :
    ∀ c ∈ COLS_TO_KEEP, c ∈ ID_COL ++ TEXT_COLS ∨ c ∈ NUTRIENT_COLS ∨
      c ∈ TAG_COLS ++ FLAG_COLS ∨ c = "label_is_anomaly" := by decide

theorem gtin_mem_keep : "gtin" ∈ COLS_TO_KEEP := by decide

theorem colsToKeep_nodup : COLS_TO_KEEP.Nodup := by decide

/-! ## Canonical form of the per-row pipeline -/

theorem getCell_map_pairs (l : List String) (G : String → Cell) (c : String)
    (hc : c ∈ l) : getCell (l.map (fun x => (x, G x))) c = G c := by
  induction l with
  | nil => cases hc
  | cons a t ih =>
      simp only [List.map_cons, getCell]
      by_cases h : a = c
      · subst h; simp
      · rw [if_neg h]
        exact ih (by cases hc with
          | head => exact absurd rfl h
          | tail _ ht => exact ht)

theorem map_entry_map_pairs (l : List String) (G : String → Cell) (f : Cell → Cell)
    (P : String → Prop) [DecidablePred P] :
    (l.map (fun x => (x, G x))).map (fun p => if P p.1 then (p.1, f p.2) else p)
      = l.map (fun x => (x, if P x then f (G x) else G x)) := by
  rw [List.map_map]
  refine List.map_congr_left ?_
  intro a _
  by_cases h : P a <;> simp [h, Function.comp]

theorem any_key_map_pairs (l : List String) (G : String → Cell) (x : String) :
    (l.map (fun c => (c, G c))).any (fun p => decide (p.1 = x)) = decide (x ∈ l) := by
  induction l with
  | nil => simp
  | cons a t ih =>
      simp only [List.map_cons, List.any_cons, ih]
      by_cases h : a = x
      · subst h; simp [List.mem_cons]
      · have h' : ¬x = a := fun hxa => h hxa.symm
        simp [List.mem_cons, h, h']

theorem setEntry_map_pairs (l : List String) (G : String → Cell) (x : String) (v : Cell) :
    setEntry (l.map (fun c => (c, G c))) x v
      = (if x ∈ l then l else l ++ [x]).map (fun c => (c, if c = x then v else G c)) := by
  unfold setEntry
  rw [any_key_map_pairs]
  by_cases hx : x ∈ l
  · have hd : decide (x ∈ l) = true := by simp [hx]
    rw [hd, if_pos rfl, if_pos hx, List.map_map]
    refine List.map_congr_left ?_
    intro a _
    by_cases h : a = x
    · subst h; simp [Function.comp]
    · simp [h, Function.comp]
  · have hd : decide (x ∈ l) = false := by simp [hx]
    rw [hd, if_neg (by simp), if_neg hx, List.map_append]
    congr 1
    · refine List.map_congr_left ?_
      intro a ha
      have : a ≠ x := fun hax => hx (hax ▸ ha)
      simp [this]
    · simp

theorem pyStr_toStringDtype (cell : Cell) : pyStr (toStringDtype cell) = pyStr cell := by
  cases cell with
  | na => rfl
  | s v => rfl
  | q v => rfl
  | b v => cases v <;> rfl
  | i n => rfl

theorem hasCaretCell_toStringDtype (cell : Cell) :
    hasCaretCell (toStringDtype cell) = hasCaretCell cell := by
  unfold hasCaretCell
  rw [pyStr_toStringDtype]

theorem foldl_anomaly_congr (L : List String) (P Q : String → Prop)
    [DecidablePred P] [DecidablePred Q] (g h : String → Bool)
    (hpq : ∀ c ∈ L, (P c ↔ Q c) ∧ (Q c → g c = h c)) :
    ∀ b : Bool,
      L.foldl (fun acc c => if P c then acc || g c else acc) b
        = L.foldl (fun acc c => if Q c then acc || h c else acc) b := by
  induction L with
  | nil => intro b; rfl
  | cons a t ih =>
      intro b
      simp only [List.foldl_cons]
      have ha := hpq a (List.mem_cons_self a t)
      by_cases hq : Q a
      · rw [if_pos (ha.1.mpr hq), if_pos hq, ha.2 hq]
        exact ih (fun c hc => hpq c (List.mem_cons_of_mem a hc)) _
      · rw [if_neg (fun hp => hq (ha.1.mp hp)), if_neg hq]
        exact ih (fun c hc => hpq c (List.mem_cons_of_mem a hc)) _

theorem mem_keepCols {c : String} {cols : List String} :
    c ∈ keepCols cols ↔ c ∈ COLS_TO_KEEP ∧ c ∈ cols := by
  unfold keepCols
  rw [List.mem_filter]
  constructor
  · rintro ⟨h1, h2⟩; exact ⟨h1, of_decide_eq_true h2⟩
  · rintro ⟨h1, h2⟩; exact ⟨h1, decide_eq_true h2⟩

theorem rowAnomalyB_canonical (cols : List String) (r : Row) :
    rowAnomalyB (keepCols cols)
      ((keepCols cols).map (fun c =>
        (c, if c ∈ ID_COL ++ TEXT_COLS then toStringDtype (getCell r c) else getCell r c)))
      = rawAnomalyB cols r := by
  unfold rowAnomalyB rawAnomalyB
  refine foldl_anomaly_congr _ _ _ _ _ ?_ false
  intro c hc
  constructor
  · rw [mem_keepCols]
    exact ⟨fun h => h.2, fun h => ⟨caretCols_subset_keep c hc, h⟩⟩
  · intro hq
    have hmem : c ∈ keepCols cols := mem_keepCols.mpr ⟨caretCols_subset_keep c hc, hq⟩
    rw [getCell_map_pairs _ _ _ hmem]
    by_cases hid : c ∈ ID_COL ++ TEXT_COLS
    · rw [if_pos hid, hasCaretCell_toStringDtype]
    · rw [if_neg hid]

theorem mem_outCols {c : String} {cols : List String} :
    c ∈ outCols cols ↔ (c ∈ COLS_TO_KEEP ∧ c ∈ cols) ∨ c = "label_is_anomaly" := by
  unfold outCols
  by_cases hl : "label_is_anomaly" ∈ keepCols cols
  · rw [if_pos hl, mem_keepCols]
    constructor
    · exact Or.inl
    · rintro (h | rfl)
      · exact h
      · exact mem_keepCols.mp hl
  · rw [if_neg hl, List.mem_append, List.mem_singleton, mem_keepCols]

/-- Closed form of the per-row pipeline. -/
theorem cleanRow_eq (cols : List String) (r : Row) :
    cleanRow cols r = (outCols cols).map (fun c => (c, cellF cols r c)) := by
  unfold cleanRow
  have h1 : stringCoerceRow (projectRow cols r)
      = (keepCols cols).map (fun c =>
          (c, if c ∈ ID_COL ++ TEXT_COLS then toStringDtype (getCell r c) else getCell r c)) := by
    unfold stringCoerceRow projectRow
    exact map_entry_map_pairs _ _ _ _
  rw [h1]
  have h2 : labelRow (keepCols cols)
      ((keepCols cols).map (fun c =>
        (c, if c ∈ ID_COL ++ TEXT_COLS then toStringDtype (getCell r c) else getCell r c)))
      = (outCols cols).map (fun c =>
          (c, if c = "label_is_anomaly"
              then Cell.i (if rawAnomalyB cols r then 1 else 0)
              else if c ∈ ID_COL ++ TEXT_COLS then toStringDtype (getCell r c)
              else getCell r c)) := by
    unfold labelRow
    rw [rowAnomalyB_canonical, setEntry_map_pairs]
    unfold outCols
    rfl
  rw [h2]
  unfold nutrientRow boolRow
  rw [map_entry_map_pairs]
  rw [map_entry_map_pairs _ _ (fun v => Cell.b (pyBool v)) (fun c => c ∈ TAG_COLS ++ FLAG_COLS)]
  refine List.map_congr_left ?_
  intro c hc
  have hgroups := mem_outCols.mp hc
  by_cases hlab : c = "label_is_anomaly"
  · subst hlab
    have h1 := label_not_nutrient
    have h2 := label_not_bool
    rw [cellF]
    split_ifs <;> simp_all
  · have hmem : c ∈ COLS_TO_KEEP := by
      rcases hgroups with h | h
      · exact h.1
      · exact absurd h hlab
    rcases keep_cases c hmem with hg | hg | hg | hg
    · -- identifier/text column
      have hnn : c ∉ NUTRIENT_COLS := idtext_not_nutrient c hg
      have hnb : c ∉ TAG_COLS ++ FLAG_COLS := fun hb => bool_not_idtext c hb hg
      rw [cellF]
      split_ifs <;> simp_all
    · -- nutrient column
      have hni : c ∉ ID_COL ++ TEXT_COLS := nutrient_not_idtext c hg
      have hnb : c ∉ TAG_COLS ++ FLAG_COLS := nutrient_not_bool c hg
      rw [cellF]
      split_ifs <;> simp_all
    · -- tag/flag column
      have hni : c ∉ ID_COL ++ TEXT_COLS := bool_not_idtext c hg
      have hnn : c ∉ NUTRIENT_COLS := fun hn => nutrient_not_bool c hn hg
      rw [cellF]
      split_ifs <;> simp_all
    · exact absurd hg hlab

/-! ## From output rows back to input rows -/

theorem getCell_cleanRow {cols : List String} {r : Row} {c : String}
    (hc : c ∈ outCols cols) : getCell (cleanRow cols r) c = cellF cols r c := by
  rw [cleanRow_eq]
  exact getCell_map_pairs _ _ _ hc

theorem label_mem_outCols (cols : List String) : "label_is_anomaly" ∈ outCols cols :=
  mem_outCols.mpr (Or.inr rfl)

theorem gtin_mem_outCols {cols : List String} (h : "gtin" ∈ cols) : "gtin" ∈ outCols cols :=
  mem_outCols.mpr (Or.inl ⟨gtin_mem_keep, h⟩)

theorem dedupFirst_sublist (l : List Row) (seen : List Cell) :
    (dedupFirst l seen).Sublist l := by
  induction l generalizing seen with
  | nil => simp [dedupFirst]
  | cons r rs ih =>
      simp only [dedupFirst]
      split
      · exact (ih _).cons r
      · exact (ih _).cons₂ r

theorem clean_ok_table {df : Table} {v : Bool} {res : CleanResult}
    (h : clean df v = Except.ok res) :
    res.table = { cols := outCols df.cols, rows := finalRows df } := by
  simp only [clean] at h
  split at h
  · cases h; rfl
  · cases h

theorem clean_ok_gtin {df : Table} {v : Bool} {res : CleanResult}
    (h : clean df v = Except.ok res) : "gtin" ∈ df.cols := by
  simp only [clean] at h
  split at h
  · next hg =>
      rcases mem_outCols.mp hg with hk | hl
      · exact hk.2
      · exact absurd hl (by decide)
  · cases h

theorem mem_finalRows {df : Table} {o : Row} (h : o ∈ finalRows df) :
    o ∈ ingrFiltered df := by
  have h1 : o ∈ sortedSurvivors df := (dedupFirst_sublist _ _).subset h
  unfold sortedSurvivors sortRows at h1
  exact (List.perm_insertionSort rowLe (ingrFiltered df)).subset h1

theorem mem_ingrFiltered {df : Table} {o : Row} (h : o ∈ ingrFiltered df) :
    o ∈ gtinFiltered df ∧
      ("ingredients_text" ∈ outCols df.cols → ingrRowOk o = true) := by
  unfold ingrFiltered at h
  split at h
  · exact ⟨(List.mem_filter.mp h).1, fun _ => (List.mem_filter.mp h).2⟩
  · next hni => exact ⟨h, fun hmem => absurd hmem hni⟩

theorem mem_gtinFiltered {df : Table} {o : Row} (h : o ∈ gtinFiltered df) :
    (∃ r ∈ df.rows, o = cleanRow df.cols r) ∧ gtinPresent o = true := by
  unfold gtinFiltered at h
  have h1 := List.mem_filter.mp h
  refine ⟨?_, h1.2⟩
  unfold projectedRows at h1
  rcases List.mem_map.mp h1.1 with ⟨r, hr, hro⟩
  exact ⟨r, hr, hro.symm⟩

/-- Every output row of a successful `clean` is the image under the per-row
pipeline of an input row, passed the gtin filter, and (when the ingredients
column exists) passed the text filter. -/
theorem outRow_spec {df : Table} {v : Bool} {res : CleanResult}
    (h : clean df v = Except.ok res) {o : Row} (ho : o ∈ res.table.rows) :
    ∃ r ∈ df.rows, o = cleanRow df.cols r ∧ gtinPresent o = true ∧
      ("ingredients_text" ∈ outCols df.cols → ingrRowOk o = true) := by
  rw [clean_ok_table h] at ho
  have h1 := mem_finalRows ho
  have h2 := mem_ingrFiltered h1
  have h3 := mem_gtinFiltered h2.1
  rcases h3.1 with ⟨r, hr, hro⟩
  exact ⟨r, hr, hro, h3.2, h2.2⟩

/-! ## The anomaly label -/

theorem foldl_guard_or_eq_any (L : List String) (P : String → Prop)
    [DecidablePred P] (g : String → Bool) :
    ∀ b : Bool,
      L.foldl (fun acc c => if P c then acc || g c else acc) b
        = (b || L.any (fun c => decide (P c) && g c)) := by
  induction L with
  | nil => intro b; simp
  | cons a t ih =>
      intro b
      simp only [List.foldl_cons, List.any_cons]
      by_cases h : P a
      · rw [if_pos h, ih]
        simp [h, Bool.or_assoc]
      · rw [if_neg h, ih]
        simp [h]

theorem rawAnomalyB_iff {cols : List String} {r : Row} :
    rawAnomalyB cols r = true ↔ RawAnomaly cols r := by
  unfold rawAnomalyB RawAnomaly
  rw [foldl_guard_or_eq_any]
  simp only [Bool.false_or, List.any_eq_true, Bool.and_eq_true, decide_eq_true_eq,
    hasCaretCell, endsCaretB]

/-- C1: for every input table and every row of the cleaned output, the
`label_is_anomaly` value is the integer 1 exactly when at least one raw
Text/Nutrient/Tag cell of the originating input row — taken as its string
representation and trimmed of surrounding whitespace — ends with `'^'`,
and the integer 0 otherwise. -/
theorem c1_anomaly_label_iff_raw_caret {df : Table} {v : Bool} {res : CleanResult}
    (h : clean df v = Except.ok res) :
    ∀ o ∈ res.table.rows, ∃ r ∈ df.rows, o = cleanRow df.cols r ∧
      (getCell o "label_is_anomaly" = Cell.i 1 ↔ RawAnomaly df.cols r) ∧
      (getCell o "label_is_anomaly" = Cell.i 0 ↔ ¬RawAnomaly df.cols r) := by
  intro o ho
  rcases outRow_spec h ho with ⟨r, hr, hro, -, -⟩
  refine ⟨r, hr, hro, ?_⟩
  subst hro
  rw [getCell_cleanRow (label_mem_outCols df.cols), cellF, if_pos rfl]
  by_cases ha : rawAnomalyB df.cols r = true
  · have hA := rawAnomalyB_iff.mp ha
    rw [if_pos ha]
    exact ⟨⟨fun _ => hA, fun _ => rfl⟩,
           ⟨fun h01 => absurd h01 (by decide), fun hn => absurd hA hn⟩⟩
  · have hA : ¬RawAnomaly df.cols r := fun hra => ha (rawAnomalyB_iff.mpr hra)
    rw [if_neg ha]
    exact ⟨⟨fun h10 => absurd h10 (by decide), fun hra => absurd hra hA⟩,
           ⟨fun _ => hA, fun _ => rfl⟩⟩

/-- Witness for C1 on the concrete table `dfC6`. -/
theorem c1_witness :
    ∃ r ∈ dfC6.rows,
      [("gtin", Cell.s "123"), ("ingredients_text", Cell.s "milk^"),
       ("calories", Cell.q 50), ("label_is_anomaly", Cell.i 1)] = cleanRow dfC6.cols r ∧
      (getCell [("gtin", Cell.s "123"), ("ingredients_text", Cell.s "milk^"),
        ("calories", Cell.q 50), ("label_is_anomaly", Cell.i 1)] "label_is_anomaly"
          = Cell.i 1 ↔ RawAnomaly dfC6.cols r) ∧
      (getCell [("gtin", Cell.s "123"), ("ingredients_text", Cell.s "milk^"),
        ("calories", Cell.q 50), ("label_is_anomaly", Cell.i 1)] "label_is_anomaly"
          = Cell.i 0 ↔ ¬RawAnomaly dfC6.cols r) :=
  @c1_anomaly_label_iff_raw_caret dfC6 true (cleanOk dfC6) (by decide)
    [("gtin", Cell.s "123"), ("ingredients_text", Cell.s "milk^"),
     ("calories", Cell.q 50), ("label_is_anomaly", Cell.i 1)] (by decide)

/-! ## C7: tag/flag boolean coercion -/

theorem bool_mem_keep : ∀ c ∈ TAG_COLS ++ FLAG_COLS, c ∈ COLS_TO_KEEP := by decide

theorem nutrient_mem_keep : ∀ c ∈ NUTRIENT_COLS, c ∈ COLS_TO_KEEP := by decide

theorem pyBool_upper_eq (w : String) :
    (if asciiUpperL w.data = "TRUE".data then true
     else if asciiUpperL w.data = "1".data then true
     else if asciiUpperL w.data = "FALSE".data then false
     else if asciiUpperL w.data = "0".data then false else false)
    = (if ciEqB w "TRUE" ∨ ciEqB w "1" then true
       else if ciEqB w "FALSE" ∨ ciEqB w "0" then false else false) := by
  have hT : asciiUpperL "TRUE".data = "TRUE".data := by decide
  have h1 : asciiUpperL "1".data = "1".data := by decide
  have hF : asciiUpperL "FALSE".data = "FALSE".data := by decide
  have h0 : asciiUpperL "0".data = "0".data := by decide
  unfold ciEqB
  rw [hT, h1, hF, h0]
  by_cases e1 : asciiUpperL w.data = "TRUE".data
  · simp [e1]
  · by_cases e2 : asciiUpperL w.data = "1".data
    · simp [e1, e2]
    · by_cases e3 : asciiUpperL w.data = "FALSE".data
      · simp [e1, e2, e3]
      · by_cases e4 : asciiUpperL w.data = "0".data <;> simp [e1, e2, e3, e4]

/-- The boolean coercion of the engine agrees with the claimed
case-insensitive fail-open mapping, on every possible cell. -/
theorem pyBool_eq_spec (cell : Cell) : pyBool cell = specBoolCell cell := by
  cases cell with
  | na => decide
  | s v => exact pyBool_upper_eq v
  | q v => exact pyBool_upper_eq (qStr v)
  | b v =>
      cases v with
      | false => exact pyBool_upper_eq "False"
      | true => exact pyBool_upper_eq "True"
  | i n => exact pyBool_upper_eq (toString n)

/-- C7: for every Tag/Flag column present in the input and every output row,
the value is the boolean image of the raw cell under the claimed
case-insensitive mapping (`TRUE`/`1` ↦ true, `FALSE`/`0` ↦ false, anything
else — missing included — ↦ false); the coercion is total, so it never
raises. -/
theorem c7_bool_fail_open {df : Table} {v : Bool} {res : CleanResult}
    (h : clean df v = Except.ok res) :
    ∀ c ∈ TAG_COLS ++ FLAG_COLS, c ∈ df.cols →
      ∀ o ∈ res.table.rows, ∃ r ∈ df.rows, o = cleanRow df.cols r ∧
        getCell o c = Cell.b (specBoolCell (getCell r c)) := by
  intro c hc hcin o ho
  rcases outRow_spec h ho with ⟨r, hr, hro, -, -⟩
  refine ⟨r, hr, hro, ?_⟩
  subst hro
  have hcout : c ∈ outCols df.cols :=
    mem_outCols.mpr (Or.inl ⟨bool_mem_keep c hc, hcin⟩)
  rw [getCell_cleanRow hcout, cellF, if_neg (bool_not_label c hc),
    if_neg (fun hn => nutrient_not_bool c hn hc), if_pos hc, pyBool_eq_spec]

/-- Witness for C7 on the concrete table `dfC7` (cell `"weird"` maps to
`false`). -/
theorem c7_witness :
    ∃ r ∈ dfC7.rows,
      [("gtin", Cell.s "2"), ("ingredients_text", Cell.s "oil"),
       ("is_seed_oil", Cell.b false), ("label_is_anomaly", Cell.i 0)]
        = cleanRow dfC7.cols r ∧
      getCell [("gtin", Cell.s "2"), ("ingredients_text", Cell.s "oil"),
        ("is_seed_oil", Cell.b false), ("label_is_anomaly", Cell.i 0)] "is_seed_oil"
        = Cell.b (specBoolCell (getCell r "is_seed_oil")) :=
  @c7_bool_fail_open dfC7 true (cleanOk dfC7) (by decide) "is_seed_oil" (by decide)
    (by decide)
    [("gtin", Cell.s "2"), ("ingredients_text", Cell.s "oil"),
     ("is_seed_oil", Cell.b false), ("label_is_anomaly", Cell.i 0)] (by decide)

/-! ## C2: the nutrient sentinel invariant -/

/-- C2, amended: every Nutrient value of the output is numeric and is either
the decimal parse of the caret-stripped, whitespace-trimmed raw cell — which
may be negative — or the sentinel `-1`; it is never missing. -/
theorem c2_nutrient_parse_or_sentinel {df : Table} {v : Bool} {res : CleanResult}
    (h : clean df v = Except.ok res) :
    ∀ c ∈ NUTRIENT_COLS, c ∈ df.cols →
      ∀ o ∈ res.table.rows, ∃ r ∈ df.rows, o = cleanRow df.cols r ∧
        (getCell o c = Cell.q (-1) ∨
          ∃ w : ℚ, parseNumL (pyStripL (pyRstripCaretL (pyStr (getCell r c)).data)) = some w ∧
            getCell o c = Cell.q w) := by
  intro c hc hcin o ho
  rcases outRow_spec h ho with ⟨r, hr, hro, -, -⟩
  refine ⟨r, hr, hro, ?_⟩
  subst hro
  have hcout : c ∈ outCols df.cols :=
    mem_outCols.mpr (Or.inl ⟨nutrient_mem_keep c hc, hcin⟩)
  rw [getCell_cleanRow hcout, cellF, if_neg (nutrient_not_label c hc), if_pos hc]
  unfold nutrientCoerce
  cases hp : parseNumL (pyStripL (pyRstripCaretL (pyStr (getCell r c)).data)) with
  | none => left; rfl
  | some w => right; exact ⟨w, rfl, rfl⟩

/-- Witness for the amended C2 on the concrete table `dfC2`. -/
theorem c2_witness :
    ∃ r ∈ dfC2.rows,
      [("gtin", Cell.s "1"), ("ingredients_text", Cell.s "milk"),
       ("calories", Cell.q (-5)), ("label_is_anomaly", Cell.i 0)]
        = cleanRow dfC2.cols r ∧
      (getCell [("gtin", Cell.s "1"), ("ingredients_text", Cell.s "milk"),
        ("calories", Cell.q (-5)), ("label_is_anomaly", Cell.i 0)] "calories"
          = Cell.q (-1) ∨
        ∃ w : ℚ,
          parseNumL (pyStripL (pyRstripCaretL (pyStr (getCell r "calories")).data)) = some w ∧
          getCell [("gtin", Cell.s "1"), ("ingredients_text", Cell.s "milk"),
            ("calories", Cell.q (-5)), ("label_is_anomaly", Cell.i 0)] "calories"
            = Cell.q w) :=
  @c2_nutrient_parse_or_sentinel dfC2 true (cleanOk dfC2) (by decide) "calories"
    (by decide) (by decide)
    [("gtin", Cell.s "1"), ("ingredients_text", Cell.s "milk"),
     ("calories", Cell.q (-5)), ("label_is_anomaly", Cell.i 0)] (by decide)

/-- Counterexample to C2 as stated: the raw calories cell `"-5"` parses to
the genuine negative value `-5`, which the pipeline keeps: the output is
neither a non-negative reading nor the sentinel `-1`. -/
theorem c2_counterexample :
    clean dfC2 true = Except.ok (cleanOk dfC2) ∧
    getCell ((cleanOk dfC2).table.rows.headD []) "calories" = Cell.q (-5) ∧
    ¬SpecC2Cell (Cell.s "-5") (Cell.q (-5)) := by
  refine ⟨by decide, by decide, ?_⟩
  rintro ⟨w, hw, hdisj⟩
  have hw5 : w = -5 := by
    have := hw
    injection this with h'
    exact h'.symm
  subst hw5
  rcases hdisj with h | ⟨hge, -⟩
  · norm_num at h
  · norm_num at hge

/-! ## C4: gtin and ingredients text of output rows -/

theorem toStringDtype_cases (cell : Cell) :
    toStringDtype cell = Cell.na ∨ ∃ sv, toStringDtype cell = Cell.s sv := by
  cases cell with
  | na => exact Or.inl rfl
  | s v => exact Or.inr ⟨v, rfl⟩
  | q v => exact Or.inr ⟨_, rfl⟩
  | b v => exact Or.inr ⟨_, rfl⟩
  | i n => exact Or.inr ⟨_, rfl⟩

theorem cellF_gtin (cols : List String) (r : Row) :
    cellF cols r "gtin" = toStringDtype (getCell r "gtin") := by
  rw [cellF, if_neg (by decide), if_neg (by decide), if_neg (by decide),
    if_pos (by decide)]

theorem cellF_ingr (cols : List String) (r : Row) :
    cellF cols r "ingredients_text" = toStringDtype (getCell r "ingredients_text") := by
  rw [cellF, if_neg (by decide), if_neg (by decide), if_neg (by decide),
    if_pos (by decide)]

/-- C4, amended: every output row's gtin cell is a (possibly empty) string,
never missing — the filter is a null check, so an empty-string gtin
survives — and, when the ingredients column is present in the input, every
output row's ingredients text is a string that is non-blank after
trimming. -/
theorem c4_gtin_string_ingr_nonblank {df : Table} {v : Bool} {res : CleanResult}
    (h : clean df v = Except.ok res) :
    ∀ o ∈ res.table.rows,
      (∃ sv, getCell o "gtin" = Cell.s sv) ∧
      ("ingredients_text" ∈ df.cols →
        ∃ tv, getCell o "ingredients_text" = Cell.s tv ∧ pyStripL tv.data ≠ []) := by
  intro o ho
  rcases outRow_spec h ho with ⟨r, hr, hro, hg, hing⟩
  have hgout : "gtin" ∈ outCols df.cols := gtin_mem_outCols (clean_ok_gtin h)
  constructor
  · have hcell : getCell o "gtin" = toStringDtype (getCell r "gtin") := by
      rw [hro, getCell_cleanRow hgout, cellF_gtin]
    have hne : getCell o "gtin" ≠ Cell.na := of_decide_eq_true hg
    rcases toStringDtype_cases (getCell r "gtin") with hna | ⟨sv, hsv⟩
    · exact absurd (hcell.trans hna) hne
    · exact ⟨sv, hcell.trans hsv⟩
  · intro hin
    have hiout : "ingredients_text" ∈ outCols df.cols :=
      mem_outCols.mpr (Or.inl ⟨by decide, hin⟩)
    have hok := of_decide_eq_true (hing hiout)
    have hcell : getCell o "ingredients_text" = toStringDtype (getCell r "ingredients_text") := by
      rw [hro, getCell_cleanRow hiout, cellF_ingr]
    rcases toStringDtype_cases (getCell r "ingredients_text") with hna | ⟨tv, htv⟩
    · exact absurd (hcell.trans hna) hok.1
    · refine ⟨tv, hcell.trans htv, ?_⟩
      have h2 := hok.2
      rw [hcell.trans htv] at h2
      exact h2

/-- Witness for the amended C4 on `dfC6`. -/
theorem c4_witness :
    (∃ sv, getCell ((cleanOk dfC6).table.rows.headD []) "gtin" = Cell.s sv) ∧
    ("ingredients_text" ∈ dfC6.cols →
      ∃ tv, getCell ((cleanOk dfC6).table.rows.headD []) "ingredients_text" = Cell.s tv ∧
        pyStripL tv.data ≠ []) :=
  @c4_gtin_string_ingr_nonblank dfC6 true (cleanOk dfC6) (by decide)
    ((cleanOk dfC6).table.rows.headD []) (by decide)

/-- Counterexample to C4 as stated: the row with gtin `""` (empty string,
not null) survives the null-check filter, so an output row carries an empty
gtin. -/
theorem c4_counterexample :
    clean dfC4 true = Except.ok (cleanOk dfC4) ∧
    getCell ((cleanOk dfC4).table.rows.headD []) "gtin" = Cell.s "" ∧
    ("" : String).length = 0 :=
  ⟨by decide, by decide, rfl⟩

/-! ## C6: the concrete scenario row -/

/-- Counterexample to C6 as stated: the cleaned row keeps the caret in
`ingredients_text` — text columns are never caret-stripped (only nutrient
columns are, lines 71–76). -/
theorem c6_counterexample :
    clean dfC6 true = Except.ok (cleanOk dfC6) ∧
    getCell ((cleanOk dfC6).table.rows.headD []) "ingredients_text" = Cell.s "milk^" ∧
    Cell.s "milk^" ≠ Cell.s "milk" :=
  ⟨by decide, by decide, by decide⟩

/-- C6, amended: on input `gtin="123", ingredients_text="milk^",
calories="50^"` the cleaned output row has `calories = 50` and
`label_is_anomaly = 1`, while `ingredients_text` keeps its trailing caret
unchanged. -/
theorem c6_scenario :
    clean dfC6 true = Except.ok (cleanOk dfC6) ∧
    (cleanOk dfC6).table.rows =
      [[("gtin", Cell.s "123"), ("ingredients_text", Cell.s "milk^"),
        ("calories", Cell.q 50), ("label_is_anomaly", Cell.i 1)]] :=
  ⟨by decide, by decide⟩

/-! ## C8: the error surface of `clean` -/

/-- C8, amended: `clean` never raises on malformed cell values — whenever
the `gtin` column is present it returns a result — and it propagates the
`KeyError` precisely when the `gtin` column is absent from the input,
whether or not the input has rows. -/
theorem c8_error_iff_gtin_absent (df : Table) (v : Bool) :
    (∃ e, clean df v = Except.error e) ↔ "gtin" ∉ df.cols := by
  simp only [clean]
  by_cases hg : "gtin" ∈ outCols df.cols
  · rw [if_pos hg]
    constructor
    · rintro ⟨e, he⟩; cases he
    · intro hn
      refine absurd ?_ hn
      rcases mem_outCols.mp hg with hk | hl
      · exact hk.2
      · exact absurd hl (by decide)
  · rw [if_neg hg]
    constructor
    · intro _; exact fun hin => hg (gtin_mem_outCols hin)
    · intro _; exact ⟨_, rfl⟩

/-- Counterexample to C8 as stated: an input with no rows and no `gtin`
column still makes `dropna(subset=["gtin"])` raise, although the claim
restricts the fatal error to non-empty inputs. -/
theorem c8_counterexample :
    dfC8.rows = [] ∧
    clean dfC8 true = Except.error "KeyError: ['gtin'] not found in axis" :=
  ⟨rfl, by decide⟩

/-! ## C9: the verbose switch -/

/-- C9: the returned table is independent of the verbose flag; the flag only
selects whether the six counters are printed (the log component). -/
theorem c9_verbose_only_reporting (df : Table) (v₁ v₂ : Bool) :
    (clean df v₁).map CleanResult.table = (clean df v₂).map CleanResult.table := by
  simp only [clean]
  by_cases hg : "gtin" ∈ outCols df.cols
  · rw [if_pos hg, if_pos hg]; rfl
  · rw [if_neg hg, if_neg hg]

/-! ## C10: a supplied label column is discarded -/

theorem caretCols_not_label :
    ∀ c ∈ TEXT_COLS ++ NUTRIENT_COLS ++ TAG_COLS, c ≠ "label_is_anomaly" := by decide

theorem getCell_map_keyupdate (r : Row) (x : String) (v : Cell) (c : String)
    (hc : c ≠ x) :
    getCell (r.map (fun p => if p.1 = x then (p.1, v) else p)) c = getCell r c := by
  induction r with
  | nil => rfl
  | cons hd t ih =>
      obtain ⟨a, w⟩ := hd
      by_cases hax : a = x
      · rw [List.map_cons, if_pos hax]
        have hac : a ≠ c := fun he => hc (he ▸ hax)
        simp only [getCell]
        rw [if_neg hac, if_neg hac]
        exact ih
      · rw [List.map_cons, if_neg hax]
        simp only [getCell]
        by_cases hac : a = c
        · rw [if_pos hac, if_pos hac]
        · rw [if_neg hac, if_neg hac]
          exact ih

theorem rawAnomalyB_keyupdate (cols : List String) (r : Row) (v' : Cell) :
    rawAnomalyB cols (r.map (fun p => if p.1 = "label_is_anomaly" then (p.1, v') else p))
      = rawAnomalyB cols r := by
  unfold rawAnomalyB
  refine foldl_anomaly_congr _ _ _ _ _ ?_ false
  intro c hc
  refine ⟨Iff.rfl, fun _ => ?_⟩
  rw [getCell_map_keyupdate _ _ _ _ (caretCols_not_label c hc)]

theorem cellF_keyupdate (cols : List String) (r : Row) (v' : Cell) (c : String) :
    cellF cols (r.map (fun p => if p.1 = "label_is_anomaly" then (p.1, v') else p)) c
      = cellF cols r c := by
  unfold cellF
  rw [rawAnomalyB_keyupdate]
  by_cases hl : c = "label_is_anomaly"
  · simp [hl]
  · rw [getCell_map_keyupdate _ _ _ _ hl]

theorem cleanRow_keyupdate (cols : List String) (r : Row) (v' : Cell) :
    cleanRow cols (r.map (fun p => if p.1 = "label_is_anomaly" then (p.1, v') else p))
      = cleanRow cols r := by
  rw [cleanRow_eq, cleanRow_eq]
  refine List.map_congr_left ?_
  intro c _
  rw [cellF_keyupdate]

/-- `clean` only looks at the input through its column list, its row count
and the per-row projections. -/
theorem clean_congr {df₁ df₂ : Table} (hc : df₁.cols = df₂.cols)
    (hl : df₁.rows.length = df₂.rows.length)
    (hp : projectedRows df₁ = projectedRows df₂) (v : Bool) :
    clean df₁ v = clean df₂ v := by
  have h2 : gtinFiltered df₁ = gtinFiltered df₂ := by
    unfold gtinFiltered; rw [hp]
  have h3 : ingrFiltered df₁ = ingrFiltered df₂ := by
    unfold ingrFiltered; rw [h2, hc]
  have h4 : finalRows df₁ = finalRows df₂ := by
    unfold finalRows sortedSurvivors; rw [h3]
  simp only [clean]
  rw [hc, hl, hp, h2, h3, h4]

/-- C10: the engine discards any supplied `label_is_anomaly` column —
replacing its cells by arbitrary garbage never changes the output — and the
recomputed label of every output row is exactly 0 or 1. -/
theorem c10_input_label_ignored (df : Table) (v : Bool) (g : Row → Cell) :
    clean (overwriteLabel df g) v = clean df v ∧
    (∀ res, clean df v = Except.ok res → ∀ o ∈ res.table.rows,
      getCell o "label_is_anomaly" = Cell.i 0 ∨
        getCell o "label_is_anomaly" = Cell.i 1) := by
  constructor
  · refine clean_congr ?_ ?_ ?_ v
    · rfl
    · simp [overwriteLabel]
    · unfold projectedRows
      simp only [overwriteLabel]
      rw [List.map_map]
      refine List.map_congr_left ?_
      intro r _
      exact cleanRow_keyupdate df.cols r (g r)
  · intro res hres o ho
    rcases outRow_spec hres ho with ⟨r, hr, hro, -, -⟩
    rw [hro, getCell_cleanRow (label_mem_outCols df.cols), cellF, if_pos rfl]
    by_cases ha : rawAnomalyB df.cols r = true
    · right; rw [if_pos ha]
    · left; rw [if_neg ha]

/-- Witness for C10 on `dfC10`, whose supplied label column holds the
garbage string `"garbage^"`. -/
theorem c10_witness :
    clean (overwriteLabel dfC10 (fun _ => Cell.q 7)) true = clean dfC10 true ∧
    (getCell ((cleanOk dfC10).table.rows.headD []) "label_is_anomaly" = Cell.i 0 ∨
      getCell ((cleanOk dfC10).table.rows.headD []) "label_is_anomaly" = Cell.i 1) :=
  ⟨(c10_input_label_ignored dfC10 true (fun _ => Cell.q 7)).1,
   (c10_input_label_ignored dfC10 true (fun _ => Cell.q 7)).2 (cleanOk dfC10) (by decide)
     ((cleanOk dfC10).table.rows.headD []) (by decide)⟩

/-! ## C3: uniqueness and keep-first deduplication -/

theorem filter_orderedInsert_gtin (k : Cell) (a : Row) (l : List Row) :
    (List.orderedInsert rowLe a l).filter (fun r => decide (getCell r "gtin" = k))
      = if getCell a "gtin" = k
        then a :: l.filter (fun r => decide (getCell r "gtin" = k))
        else l.filter (fun r => decide (getCell r "gtin" = k)) := by
  rw [List.orderedInsert_eq_take_drop, List.filter_append]
  by_cases hpa : getCell a "gtin" = k
  · rw [if_pos hpa]
    have htw : (l.takeWhile (fun b => decide ¬rowLe a b)).filter
        (fun r => decide (getCell r "gtin" = k)) = [] := by
      rw [List.filter_eq_nil_iff]
      intro b' hb hbk
      have hlt : ¬rowLe a b' := by simpa using List.mem_takeWhile_imp hb
      have hbk' : getCell b' "gtin" = k := of_decide_eq_true hbk
      refine hlt (le_of_eq ?_)
      show (sortKey a).data = (sortKey b').data
      unfold sortKey
      rw [hpa, hbk']
    rw [htw, List.filter_cons, if_pos (decide_eq_true hpa)]
    have hsplit := congrArg (List.filter (fun r => decide (getCell r "gtin" = k)))
      (List.takeWhile_append_dropWhile (p := fun b => decide ¬rowLe a b) (l := l))
    rw [List.filter_append, htw, List.nil_append] at hsplit
    rw [hsplit]
    rfl
  · rw [if_neg hpa, List.filter_cons, if_neg (by simpa using hpa)]
    have hsplit := congrArg (List.filter (fun r => decide (getCell r "gtin" = k)))
      (List.takeWhile_append_dropWhile (p := fun b => decide ¬rowLe a b) (l := l))
    rw [List.filter_append] at hsplit
    rw [hsplit]

theorem filter_sortRows_gtin (k : Cell) (l : List Row) :
    (sortRows l).filter (fun r => decide (getCell r "gtin" = k))
      = l.filter (fun r => decide (getCell r "gtin" = k)) := by
  unfold sortRows
  induction l with
  | nil => rfl
  | cons a t ih =>
      simp only [List.insertionSort]
      rw [filter_orderedInsert_gtin, List.filter_cons]
      by_cases hpa : getCell a "gtin" = k
      · rw [if_pos hpa, if_pos (decide_eq_true hpa), ih]
      · rw [if_neg hpa, if_neg (by simpa using hpa), ih]

theorem dedupFirst_spec (l : List Row) (seen : List Cell) :
    ∀ o ∈ dedupFirst l seen, getCell o "gtin" ∉ seen ∧
      l.find? (fun r => decide (getCell r "gtin" = getCell o "gtin")) = some o := by
  induction l generalizing seen with
  | nil => intro o ho; cases ho
  | cons r rs ih =>
      intro o ho
      simp only [dedupFirst] at ho
      by_cases hk : getCell r "gtin" ∈ seen
      · rw [if_pos hk] at ho
        rcases ih seen o ho with ⟨h1, h2⟩
        refine ⟨h1, ?_⟩
        rw [List.find?_cons]
        have hne : getCell r "gtin" ≠ getCell o "gtin" := fun he => h1 (he ▸ hk)
        have : decide (getCell r "gtin" = getCell o "gtin") = false := by
          simpa using hne
        rw [this]
        exact h2
      · rw [if_neg hk] at ho
        rcases List.mem_cons.mp ho with rfl | ho
        · refine ⟨hk, ?_⟩
          rw [List.find?_cons]
          have : decide (getCell o "gtin" = getCell o "gtin") = true := by simp
          rw [this]
        · rcases ih (getCell r "gtin" :: seen) o ho with ⟨h1, h2⟩
          have hnk : getCell o "gtin" ≠ getCell r "gtin" :=
            fun he => h1 (by rw [he]; exact List.mem_cons_self _ _)
          refine ⟨fun hs => h1 (List.mem_cons_of_mem _ hs), ?_⟩
          rw [List.find?_cons]
          have : decide (getCell r "gtin" = getCell o "gtin") = false := by
            simpa using fun he => hnk he.symm
          rw [this]
          exact h2

theorem dedupFirst_pairwise (l : List Row) (seen : List Cell) :
    (dedupFirst l seen).Pairwise
      (fun o₁ o₂ => getCell o₁ "gtin" ≠ getCell o₂ "gtin") := by
  induction l generalizing seen with
  | nil => exact List.Pairwise.nil
  | cons r rs ih =>
      simp only [dedupFirst]
      split
      · exact ih _
      · refine List.Pairwise.cons ?_ (ih _)
        intro o ho
        have h1 := (dedupFirst_spec rs (getCell r "gtin" :: seen) o ho).1
        exact fun he => h1 (by rw [← he]; exact List.mem_cons_self _ _)

theorem find?_eq_head_filter (p : Row → Bool) (l : List Row) :
    l.find? p = (l.filter p).head? := by
  induction l with
  | nil => rfl
  | cons a t ih =>
      rw [List.find?_cons, List.filter_cons]
      cases hp : p a
      · exact ih
      · rfl

theorem dedupFirst_represents : ∀ (l : List Row) (seen : List Cell) (o : Row),
    o ∈ l → getCell o "gtin" ∉ seen →
    ∃ o' ∈ dedupFirst l seen, getCell o' "gtin" = getCell o "gtin" := by
  intro l
  induction l with
  | nil => intro seen o ho _; cases ho
  | cons r rs ih =>
      intro seen o ho hns
      simp only [dedupFirst]
      by_cases hk : getCell r "gtin" ∈ seen
      · rw [if_pos hk]
        rcases List.mem_cons.mp ho with rfl | ho'
        · exact absurd hk hns
        · exact ih seen o ho' hns
      · rw [if_neg hk]
        rcases List.mem_cons.mp ho with rfl | ho'
        · exact ⟨o, List.mem_cons_self _ _, rfl⟩
        · by_cases he : getCell o "gtin" = getCell r "gtin"
          · exact ⟨r, List.mem_cons_self _ _, he.symm⟩
          · have hns' : getCell o "gtin" ∉ getCell r "gtin" :: seen := by
              intro hmem
              rcases List.mem_cons.mp hmem with h1 | h1
              · exact he h1
              · exact hns h1
            obtain ⟨o', ho'', heq⟩ := ih _ o ho' hns'
            exact ⟨o', List.mem_cons_of_mem _ ho'', heq⟩

theorem sortedPerm_sortRows (df : Table) : SortedPerm df (sortedSurvivors df) :=
  ⟨List.perm_insertionSort rowLe (ingrFiltered df),
   List.sorted_insertionSort rowLe (ingrFiltered df)⟩

/-- C3, corrected: line 112's `sort_values("gtin")` uses pandas' default
unstable quicksort, so the program guarantees only *some* ascending-by-gtin
permutation of the filtered rows (`SortedPerm`) before the keep-first pass.
For every admissible sort output `l`: the deduplicated rows are pairwise
distinct in gtin, listed in ascending gtin order, form a sublist of `l`
drawn from the filtered rows, and represent every filtered row's gtin;
which of several rows sharing a gtin survives depends on the unspecified
tie order, so keep-first-occurrence-in-input-order is not guaranteed.  The
returned table itself is the deduplication of one admissible output. -/
theorem c3_unique_any_sort {df : Table} {v : Bool} {res : CleanResult}
    (h : clean df v = Except.ok res) (l : List Row) (hl : SortedPerm df l) :
    (SortedPerm df (sortedSurvivors df) ∧
      res.table.rows = dedupFirst (sortedSurvivors df) []) ∧
    (dedupFirst l []).Pairwise
      (fun o₁ o₂ => getCell o₁ "gtin" ≠ getCell o₂ "gtin") ∧
    (dedupFirst l []).Sorted rowLe ∧
    (dedupFirst l []).Sublist l ∧
    (∀ o ∈ dedupFirst l [], o ∈ ingrFiltered df) ∧
    (∀ o ∈ ingrFiltered df, ∃ o' ∈ dedupFirst l [],
      getCell o' "gtin" = getCell o "gtin") := by
  refine ⟨⟨sortedPerm_sortRows df, ?_⟩, dedupFirst_pairwise l [], ?_,
    dedupFirst_sublist l [], ?_, ?_⟩
  · rw [clean_ok_table h]
    rfl
  · exact List.Pairwise.sublist (dedupFirst_sublist l []) hl.2
  · intro o ho
    exact hl.1.subset ((dedupFirst_sublist l []).subset ho)
  · intro o ho
    exact dedupFirst_represents l [] o (hl.1.symm.subset ho) (List.not_mem_nil _)

/-- Witness for C3, instantiated at the tie-reversed admissible sort output
`permC3` of `dfC3`: every hypothesis holds concretely and the conclusion is
exercised at a tie order the stable refinement does not produce. -/
theorem c3_witness :
    (clean dfC3 true = Except.ok (cleanOk dfC3) ∧ SortedPerm dfC3 permC3) ∧
    ((SortedPerm dfC3 (sortedSurvivors dfC3) ∧
       (cleanOk dfC3).table.rows = dedupFirst (sortedSurvivors dfC3) []) ∧
     (dedupFirst permC3 []).Pairwise
       (fun o₁ o₂ => getCell o₁ "gtin" ≠ getCell o₂ "gtin") ∧
     (dedupFirst permC3 []).Sorted rowLe ∧
     (dedupFirst permC3 []).Sublist permC3 ∧
     (∀ o ∈ dedupFirst permC3 [], o ∈ ingrFiltered dfC3) ∧
     (∀ o ∈ ingrFiltered dfC3, ∃ o' ∈ dedupFirst permC3 [],
       getCell o' "gtin" = getCell o "gtin")) :=
  ⟨⟨by decide, by decide⟩,
   @c3_unique_any_sort dfC3 true (cleanOk dfC3) (by decide) permC3 (by decide)⟩

/-- Counterexample to C3 as stated: `permC3` is ascending by gtin and a
permutation of `dfC3`'s filtered rows, so it is an output the unstable
`sort_values` is permitted to produce; yet keep-first over it retains the
third input row (`"second5"`) for gtin `"5"`, not the first occurrence
(`"first5"`), and yields a different final table than the stable tie order
does.  Keep-first-per-key after an unstable sort is not
keep-first-occurrence-in-input-order. -/
theorem c3_counterexample :
    SortedPerm dfC3 permC3 ∧
    (ingrFiltered dfC3).find?
        (fun r => decide (getCell r "gtin" = Cell.s "5"))
      = some [("gtin", Cell.s "5"), ("ingredients_text", Cell.s "first5"),
              ("label_is_anomaly", Cell.i 0)] ∧
    [("gtin", Cell.s "5"), ("ingredients_text", Cell.s "first5"),
     ("label_is_anomaly", Cell.i 0)] ∉ dedupFirst permC3 [] ∧
    dedupFirst permC3 [] ≠ finalRows dfC3 := by decide

/-! ## Decimal digits: rendering and parsing agree -/

theorem digitsVal_foldl (l : List Char) :
    ∀ a : ℕ, l.foldl (fun a c => a * 10 + digitVal c) a
      = a * 10 ^ l.length + l.foldl (fun a c => a * 10 + digitVal c) 0 := by
  induction l with
  | nil => intro a; simp
  | cons c t ih =>
      intro a
      rw [List.foldl_cons, List.foldl_cons, ih (a * 10 + digitVal c),
        ih (0 * 10 + digitVal c)]
      simp only [List.length_cons, pow_succ]
      ring

theorem digitsVal_append (xs ys : List Char) :
    digitsVal (xs ++ ys) = digitsVal xs * 10 ^ ys.length + digitsVal ys := by
  unfold digitsVal
  rw [List.foldl_append]
  exact digitsVal_foldl ys (List.foldl _ 0 xs)

theorem digitsVal_singleton (c : Char) : digitsVal [c] = digitVal c := by
  unfold digitsVal
  simp

theorem digitsVal_replicate_zero (z : ℕ) (ds : List Char) :
    digitsVal (List.replicate z '0' ++ ds) = digitsVal ds := by
  rw [digitsVal_append]
  have hz : digitsVal (List.replicate z '0') = 0 := by
    induction z with
    | zero => rfl
    | succ n ih =>
        rw [List.replicate_succ]
        unfold digitsVal at ih ⊢
        rw [List.foldl_cons]
        simpa [digitVal] using ih
  rw [hz]
  ring

theorem decDigit_val : ∀ d < 10, digitVal (decDigit d) = d := by decide

theorem decDigit_mem :
    ∀ d : ℕ, decDigit d ∈ ['0', '1', '2', '3', '4', '5', '6', '7', '8', '9'] := by
  intro d
  unfold decDigit
  split <;> decide

theorem natDigitsAux_spec :
    ∀ fuel n, n < fuel →
      digitsVal (natDigitsAux fuel n) = n ∧ natDigitsAux fuel n ≠ [] ∧
        ∀ c ∈ natDigitsAux fuel n,
          c ∈ ['0', '1', '2', '3', '4', '5', '6', '7', '8', '9'] := by
  intro fuel
  induction fuel with
  | zero => intro n hn; omega
  | succ f ih =>
      intro n hn
      by_cases h10 : n < 10
      · refine ⟨?_, ?_, ?_⟩
        · simp only [natDigitsAux, if_pos h10]
          rw [digitsVal_singleton]
          exact decDigit_val n h10
        · simp [natDigitsAux, if_pos h10]
        · intro c hc
          simp only [natDigitsAux, if_pos h10, List.mem_singleton] at hc
          exact hc ▸ decDigit_mem n
      · have hdiv : n / 10 < f := by omega
        have hrec := ih (n / 10) hdiv
        refine ⟨?_, ?_, ?_⟩
        · simp only [natDigitsAux, if_neg h10]
          rw [digitsVal_append, hrec.1, digitsVal_singleton, List.length_singleton,
            decDigit_val (n % 10) (Nat.mod_lt n (by omega))]
          omega
        · simp [natDigitsAux, if_neg h10]
        · intro c hc
          simp only [natDigitsAux, if_neg h10, List.mem_append, List.mem_singleton] at hc
          rcases hc with hc | rfl
          · exact hrec.2.2 c hc
          · exact decDigit_mem (n % 10)

theorem natDigits_spec (n : ℕ) :
    digitsVal (natDigits n) = n ∧ natDigits n ≠ [] ∧
      ∀ c ∈ natDigits n, c ∈ ['0', '1', '2', '3', '4', '5', '6', '7', '8', '9'] :=
  natDigitsAux_spec (n + 1) n (Nat.lt_succ_self n)

/-! ## Span, sign, and mantissa lemmas -/

theorem takeWhile_all {p : Char → Bool} {l : List Char} (h : ∀ c ∈ l, p c = true) :
    l.takeWhile p = l ∧ l.dropWhile p = [] := by
  induction l with
  | nil => exact ⟨rfl, rfl⟩
  | cons c t ih =>
      have hc := h c (List.mem_cons_self c t)
      have ht := ih (fun c' hc' => h c' (List.mem_cons_of_mem _ hc'))
      rw [List.takeWhile_cons, List.dropWhile_cons, hc]
      simp [ht.1, ht.2]

theorem span_append_stop {p : Char → Bool} (ds : List Char) (y : Char) (ys : List Char)
    (hds : ∀ c ∈ ds, p c = true) (hy : p y = false) :
    (ds ++ y :: ys).takeWhile p = ds ∧ (ds ++ y :: ys).dropWhile p = y :: ys := by
  induction ds with
  | nil => simp [List.takeWhile_cons, List.dropWhile_cons, hy]
  | cons c t ih =>
      have hc := hds c (List.mem_cons_self c t)
      have ht := ih (fun c' hc' => hds c' (List.mem_cons_of_mem _ hc'))
      simp only [List.cons_append, List.takeWhile_cons, List.dropWhile_cons, hc]
      simp [ht.1, ht.2]

theorem digits_isDigit :
    ∀ c ∈ ['0', '1', '2', '3', '4', '5', '6', '7', '8', '9'], Char.isDigit c = true := by
  decide

theorem parseSign_digit {c : Char} (r : List Char)
    (h : c ∈ ['0', '1', '2', '3', '4', '5', '6', '7', '8', '9']) :
    parseSign (c :: r) = (false, c :: r) := by
  fin_cases h <;> rfl

theorem parseMant_digits (ds : List Char) (hne : ds ≠ [])
    (hds : ∀ c ∈ ds, Char.isDigit c = true) :
    parseMant ds = some ((digitsVal ds : ℚ), []) := by
  have h1 := takeWhile_all hds
  simp only [parseMant, spanDigits, h1.1, h1.2]
  rw [if_neg hne]

theorem parseMant_digits_dot (I F : List Char) (hI : ∀ c ∈ I, Char.isDigit c = true)
    (hF : ∀ c ∈ F, Char.isDigit c = true) (hlen : I.length + F.length ≠ 0) :
    parseMant (I ++ '.' :: F) = some ((digitsVal (I ++ F) : ℚ) / 10 ^ F.length, []) := by
  have h1 := span_append_stop I '.' F hI (by decide)
  have h2 := takeWhile_all hF
  simp only [parseMant, spanDigits, h1.1, h1.2, h2.1, h2.2]
  rw [if_neg hlen]

theorem parseNumL_digits_body {body : List Char} {m : ℚ}
    (hhead : ∀ c r', body = c :: r' → c ∈ ['0', '1', '2', '3', '4', '5', '6', '7', '8', '9'])
    (hne : body ≠ [])
    (hm : parseMant body = some (m, [])) :
    parseNumL body = some m ∧ parseNumL ('-' :: body) = some (-m) := by
  obtain ⟨c, r, rfl⟩ := List.exists_cons_of_ne_nil hne
  constructor
  · simp only [parseNumL, parseSign_digit r (hhead c r rfl), hm]
    rfl
  · simp only [parseNumL, parseSign, hm]
    rfl

theorem qBody_parse (m k : ℕ) (ds' : List Char)
    (hval : digitsVal ds' = m)
    (hall : ∀ c ∈ ds', c ∈ ['0', '1', '2', '3', '4', '5', '6', '7', '8', '9'])
    (hklen : k < ds'.length) :
    parseNumL (if k = 0 then ds'
        else ds'.take (ds'.length - k) ++ '.' :: ds'.drop (ds'.length - k))
      = some ((m : ℚ) / 10 ^ k) ∧
    parseNumL ('-' :: (if k = 0 then ds'
        else ds'.take (ds'.length - k) ++ '.' :: ds'.drop (ds'.length - k)))
      = some (-((m : ℚ) / 10 ^ k)) := by
  have hne' : ds' ≠ [] := List.ne_nil_of_length_pos (by omega)
  by_cases hk0 : k = 0
  · subst hk0
    rw [if_pos rfl]
    have hp := parseMant_digits ds' hne' (fun c hc => digits_isDigit c (hall c hc))
    rw [hval] at hp
    have hb := parseNumL_digits_body (m := (m : ℚ))
      (fun c r' he => hall c (by rw [he]; exact List.mem_cons_self c r')) hne' hp
    rw [pow_zero, div_one]
    exact hb
  · rw [if_neg hk0]
    have hIF : ds'.take (ds'.length - k) ++ ds'.drop (ds'.length - k) = ds' :=
      List.take_append_drop _ _
    have hFlen : (ds'.drop (ds'.length - k)).length = k := by
      rw [List.length_drop]; omega
    have hIlen : (ds'.take (ds'.length - k)).length = ds'.length - k := by
      rw [List.length_take]; omega
    have hI : ∀ c ∈ ds'.take (ds'.length - k), Char.isDigit c = true :=
      fun c hc => digits_isDigit c (hall c (List.take_subset _ _ hc))
    have hF : ∀ c ∈ ds'.drop (ds'.length - k), Char.isDigit c = true :=
      fun c hc => digits_isDigit c (hall c (List.drop_subset _ _ hc))
    have hp := parseMant_digits_dot _ _ hI hF (by omega)
    rw [hIF, hval, hFlen] at hp
    have hneI : ds'.take (ds'.length - k) ≠ [] :=
      List.ne_nil_of_length_pos (by omega)
    obtain ⟨c₀, I', hI'⟩ := List.exists_cons_of_ne_nil hneI
    have hbody_ne : ds'.take (ds'.length - k) ++ '.' :: ds'.drop (ds'.length - k) ≠ [] := by
      simp
    refine parseNumL_digits_body ?_ hbody_ne hp
    intro c r' he
    rw [hI', List.cons_append] at he
    cases he
    exact hall c₀ (List.take_subset _ _ (by rw [hI']; exact List.mem_cons_self _ _))

theorem qBody_chars (q : ℚ) (k : ℕ) :
    ∀ c ∈ qBody q k, c ∈ ['0', '1', '2', '3', '4', '5', '6', '7', '8', '9', '.'] := by
  intro c hc
  simp only [qBody] at hc
  have hds := natDigits_spec (q.num.natAbs * (10 ^ k / q.den))
  have hmem : ∀ x ∈ List.replicate
      (k + 1 - (natDigits (q.num.natAbs * (10 ^ k / q.den))).length) '0'
        ++ natDigits (q.num.natAbs * (10 ^ k / q.den)),
      x ∈ ['0', '1', '2', '3', '4', '5', '6', '7', '8', '9'] := by
    intro x hx
    rcases List.mem_append.mp hx with hx | hx
    · rw [List.eq_of_mem_replicate hx]; decide
    · exact hds.2.2 x hx
  by_cases hk0 : k = 0
  · rw [if_pos hk0] at hc
    have := hmem c hc
    simp only [List.mem_cons, List.mem_singleton] at this ⊢
    tauto
  · rw [if_neg hk0] at hc
    rcases List.mem_append.mp hc with hx | hx
    · have := hmem c (List.take_subset _ _ hx)
      simp only [List.mem_cons, List.mem_singleton] at this ⊢
      tauto
    · rcases List.mem_cons.mp hx with rfl | hx
      · simp
      · have := hmem c (List.drop_subset _ _ hx)
        simp only [List.mem_cons, List.mem_singleton] at this ⊢
        tauto

/-- The decimal rendering round trip: any rational whose denominator divides
a power of ten is parsed back exactly from its rendering. -/
theorem parse_qStr {q : ℚ} {k : ℕ} (hk : pow10Exp q.den = some k) :
    parseNumL (qStr q).data = some q := by
  have hdvd : q.den ∣ 10 ^ k := by
    have hk' : (List.range (q.den + 1)).find? (fun j => decide (q.den ∣ 10 ^ j)) = some k := hk
    simpa using List.find?_some hk'
  have hdata : (qStr q).data = (if q.num < 0 then ['-'] else []) ++ qBody q k := by
    show qChars q = _
    simp [qChars, hk]
  have hds := natDigits_spec (q.num.natAbs * (10 ^ k / q.den))
  have hlen1 : 0 < (natDigits (q.num.natAbs * (10 ^ k / q.den))).length :=
    List.length_pos.mpr hds.2.1
  have hval' : digitsVal (List.replicate
      (k + 1 - (natDigits (q.num.natAbs * (10 ^ k / q.den))).length) '0'
        ++ natDigits (q.num.natAbs * (10 ^ k / q.den)))
      = q.num.natAbs * (10 ^ k / q.den) := by
    rw [digitsVal_replicate_zero]
    exact hds.1
  have hall' : ∀ c ∈ List.replicate
      (k + 1 - (natDigits (q.num.natAbs * (10 ^ k / q.den))).length) '0'
        ++ natDigits (q.num.natAbs * (10 ^ k / q.den)),
      c ∈ ['0', '1', '2', '3', '4', '5', '6', '7', '8', '9'] := by
    intro c hcm
    rcases List.mem_append.mp hcm with hcm | hcm
    · rw [List.eq_of_mem_replicate hcm]; decide
    · exact hds.2.2 c hcm
  have hklen : k < (List.replicate
      (k + 1 - (natDigits (q.num.natAbs * (10 ^ k / q.den))).length) '0'
        ++ natDigits (q.num.natAbs * (10 ^ k / q.den))).length := by
    rw [List.length_append, List.length_replicate]
    omega
  have hparse := qBody_parse _ k _ hval' hall' hklen
  have h1 : parseNumL (qBody q k)
      = some (((q.num.natAbs * (10 ^ k / q.den) : ℕ) : ℚ) / 10 ^ k) := hparse.1
  have h2 : parseNumL ('-' :: qBody q k)
      = some (-(((q.num.natAbs * (10 ^ k / q.den) : ℕ) : ℚ) / 10 ^ k)) := hparse.2
  have hden0 : (q.den : ℚ) ≠ 0 := by exact_mod_cast q.den_nz
  have harith : ((q.num.natAbs * (10 ^ k / q.den) : ℕ) : ℚ) / 10 ^ k
      = (q.num.natAbs : ℚ) / (q.den : ℚ) := by
    have hmul : q.num.natAbs * (10 ^ k / q.den) * q.den = q.num.natAbs * 10 ^ k := by
      rw [mul_assoc, Nat.div_mul_cancel hdvd]
    have hpow : ((10 : ℚ)) ^ k ≠ 0 := by positivity
    rw [div_eq_div_iff hpow hden0]
    exact_mod_cast hmul
  by_cases hneg : q.num < 0
  · rw [hdata, if_pos hneg, List.singleton_append, h2, harith]
    have hnum : ((q.num.natAbs : ℕ) : ℚ) = -(q.num : ℚ) := by
      rw [Int.cast_natAbs, abs_of_neg hneg]
      push_cast
      ring
    rw [hnum, neg_div, neg_neg, Rat.num_div_den]
  · rw [hdata, if_neg hneg, List.nil_append, h1, harith]
    have hnum : ((q.num.natAbs : ℕ) : ℚ) = (q.num : ℚ) := by
      rw [Int.cast_natAbs, abs_of_nonneg (not_lt.mp hneg)]
    rw [hnum, Rat.num_div_den]

/-! ## Denominators of parsed values divide a power of ten -/

theorem pow10Exp_isSome {d : ℕ} (hd : d ≠ 0) {s : ℕ} (h : d ∣ 10 ^ s) :
    (pow10Exp d).isSome = true := by
  unfold pow10Exp
  rw [List.find?_isSome]
  refine ⟨max (d.factorization 2) (d.factorization 5), ?_, ?_⟩
  · rw [List.mem_range]
    have h2 := Nat.factorization_lt 2 hd
    have h5 := Nat.factorization_lt 5 hd
    omega
  · rw [decide_eq_true_eq]
    have h10 : ((10 : ℕ)) ^ max (d.factorization 2) (d.factorization 5) ≠ 0 := by positivity
    rw [← Nat.factorization_le_iff_dvd hd h10]
    have hfac10 : (10 : ℕ).factorization
        = Finsupp.single 2 1 + Finsupp.single 5 1 := by
      have : (10 : ℕ) = 2 * 5 := by norm_num
      rw [this, Nat.factorization_mul (by norm_num) (by norm_num),
        Nat.Prime.factorization Nat.prime_two, Nat.Prime.factorization (by norm_num)]
    have hle := (Nat.factorization_le_iff_dvd hd (by positivity : (10:ℕ) ^ s ≠ 0)).mpr h
    rw [Finsupp.le_def]
    intro p
    rw [Nat.factorization_pow, Finsupp.smul_apply, hfac10, Finsupp.add_apply,
      Finsupp.single_apply, Finsupp.single_apply]
    have hlep := hle p
    rw [Nat.factorization_pow, Finsupp.smul_apply, hfac10, Finsupp.add_apply,
      Finsupp.single_apply, Finsupp.single_apply] at hlep
    by_cases hp2 : 2 = p
    · subst hp2
      rw [if_pos rfl, if_neg (by norm_num : ¬(5 = 2)), smul_eq_mul]
      have := le_max_left (d.factorization 2) (d.factorization 5)
      omega
    · by_cases hp5 : 5 = p
      · subst hp5
        rw [if_neg hp2, if_pos rfl, smul_eq_mul]
        have := le_max_right (d.factorization 2) (d.factorization 5)
        omega
      · rw [if_neg hp2, if_neg hp5, smul_eq_mul] at hlep ⊢
        omega

theorem decRep_of_dvd {q : ℚ} {s : ℕ} (h : q.den ∣ 10 ^ s) : DecimalRep q :=
  pow10Exp_isSome q.den_nz h

theorem decRep_dvd {q : ℚ} (h : DecimalRep q) : ∃ k, q.den ∣ 10 ^ k := by
  unfold DecimalRep pow10Exp at h
  rw [Option.isSome_iff_exists] at h
  obtain ⟨k, hk⟩ := h
  exact ⟨k, by simpa using List.find?_some hk⟩

theorem decRep_mul {a b : ℚ} (ha : DecimalRep a) (hb : DecimalRep b) :
    DecimalRep (a * b) := by
  obtain ⟨s, hs⟩ := decRep_dvd ha
  obtain ⟨t, ht⟩ := decRep_dvd hb
  refine decRep_of_dvd (s := s + t) ?_
  calc (a * b).den ∣ a.den * b.den := Rat.mul_den_dvd a b
    _ ∣ 10 ^ s * 10 ^ t := mul_dvd_mul hs ht
    _ = 10 ^ (s + t) := (pow_add 10 s t).symm

theorem decRep_intCast (n : ℤ) : DecimalRep ((n : ℚ)) := by
  refine decRep_of_dvd (s := 0) ?_
  have := Rat.den_dvd n 1
  rw [Rat.divInt_one] at this
  rw [pow_zero]
  exact_mod_cast this

theorem decRep_natCast (n : ℕ) : DecimalRep ((n : ℚ)) := by
  have := decRep_intCast (n : ℤ)
  rwa [Int.cast_natCast] at this

theorem decRep_neg {a : ℚ} (ha : DecimalRep a) : DecimalRep (-a) := by
  have := decRep_mul (decRep_intCast (-1)) ha
  rwa [Int.cast_neg, Int.cast_one, neg_one_mul] at this

theorem decRep_inv_pow10 (b : ℕ) : DecimalRep (((10 : ℚ) ^ b)⁻¹) := by
  have hcast : ((10 : ℚ)) ^ b = (((10 ^ b : ℤ) : ℚ)) := by push_cast; ring
  refine decRep_of_dvd (s := b) ?_
  rw [hcast, Rat.inv_def', Rat.den_intCast, Rat.num_intCast]
  have := Rat.den_dvd ((1 : ℕ) : ℤ) ((10 : ℤ) ^ b)
  exact_mod_cast this

theorem decRep_div_pow10 (n : ℕ) (b : ℕ) : DecimalRep ((n : ℚ) / 10 ^ b) := by
  rw [div_eq_mul_inv]
  exact decRep_mul (decRep_natCast n) (decRep_inv_pow10 b)

theorem decRep_zpow10 (e : ℤ) : DecimalRep ((10 : ℚ) ^ e) := by
  cases e with
  | ofNat t =>
      rw [Int.ofNat_eq_coe, zpow_natCast]
      have hcast : ((10 : ℚ)) ^ t = (((10 ^ t : ℕ) : ℚ)) := by push_cast; ring
      rw [hcast]
      exact decRep_natCast _
  | negSucc t =>
      rw [zpow_negSucc]
      exact decRep_inv_pow10 (t + 1)

theorem parseMant_decimalRep {cs : List Char} {m : ℚ} {rest : List Char}
    (h : parseMant cs = some (m, rest)) : DecimalRep m := by
  simp only [parseMant] at h
  split at h
  · split at h
    · exact absurd h (by simp)
    · rw [Option.some.injEq, Prod.mk.injEq] at h
      rw [← h.1]
      exact decRep_div_pow10 _ _
  · split at h
    · exact absurd h (by simp)
    · rw [Option.some.injEq, Prod.mk.injEq] at h
      rw [← h.1]
      exact decRep_natCast _

theorem parseNumL_decimalRep {cs : List Char} {w : ℚ}
    (h : parseNumL cs = some w) : DecimalRep w := by
  simp only [parseNumL] at h
  split at h
  · exact absurd h (by simp)
  · next m rest hm =>
      have hdm : DecimalRep m := parseMant_decimalRep hm
      have hdm' : DecimalRep (if (parseSign cs).1 = true then -m else m) := by
        split
        · exact decRep_neg hdm
        · exact hdm
      split at h
      · rw [Option.some.injEq] at h
        rw [← h]
        exact hdm'
      · split at h
        · split at h
          · rw [Option.some.injEq] at h
            rw [← h]
            exact decRep_mul hdm' (decRep_zpow10 _)
          · exact absurd h (by simp)
        · exact absurd h (by simp)

/-! ## The rendering of a decimal value is left unchanged by the caret strip
and whitespace trim -/

theorem dropWhile_false {p : Char → Bool} {l : List Char}
    (h : ∀ c ∈ l, p c = false) : l.dropWhile p = l := by
  cases l with
  | nil => rfl
  | cons c t => rw [List.dropWhile_cons, h c (List.mem_cons_self c t)]; simp

theorem pyStripL_noop {cs : List Char} (h : ∀ c ∈ cs, pyWS c = false) :
    pyStripL cs = cs := by
  unfold pyStripL
  rw [dropWhile_false h,
    dropWhile_false (fun c hc => h c (List.mem_reverse.mp hc)),
    List.reverse_reverse]

theorem pyRstripCaretL_noop {cs : List Char} (h : ∀ c ∈ cs, ¬c = '^') :
    pyRstripCaretL cs = cs := by
  unfold pyRstripCaretL
  rw [dropWhile_false
      (fun c hc => decide_eq_false (h c (List.mem_reverse.mp hc))),
    List.reverse_reverse]

theorem qStr_chars {q : ℚ} {k : ℕ} (hk : pow10Exp q.den = some k) :
    ∀ c ∈ (qStr q).data,
      c ∈ ['-', '0', '1', '2', '3', '4', '5', '6', '7', '8', '9', '.'] := by
  have hdata : (qStr q).data = (if q.num < 0 then ['-'] else []) ++ qBody q k := by
    show qChars q = _
    simp [qChars, hk]
  rw [hdata]
  intro c hc
  rcases List.mem_append.mp hc with hc | hc
  · split at hc
    · rw [List.mem_singleton] at hc
      subst hc
      decide
    · cases hc
  · have := qBody_chars q k c hc
    simp only [List.mem_cons, List.mem_singleton] at this ⊢
    tauto

theorem qStr_strip_noop {q : ℚ} {k : ℕ} (hk : pow10Exp q.den = some k) :
    pyStripL (pyRstripCaretL (qStr q).data) = (qStr q).data := by
  have hcc := qStr_chars hk
  have hnws : ∀ c ∈ ['-', '0', '1', '2', '3', '4', '5', '6', '7', '8', '9', '.'],
      pyWS c = false := by decide
  have hncar : ∀ c ∈ ['-', '0', '1', '2', '3', '4', '5', '6', '7', '8', '9', '.'],
      ¬c = '^' := by decide
  rw [pyRstripCaretL_noop (fun c hc => hncar c (hcc c hc)),
    pyStripL_noop (fun c hc => hnws c (hcc c hc))]

/-- Fixed point: the nutrient coercion leaves already-coerced numeric cells
unchanged (their rendering parses back to the same value). -/
theorem nutrientCoerce_fixed {v : ℚ} (hv : DecimalRep v) :
    nutrientCoerce (Cell.q v) = Cell.q v := by
  obtain ⟨k, hk⟩ := Option.isSome_iff_exists.mp hv
  unfold nutrientCoerce
  have hps : pyStr (Cell.q v) = qStr v := rfl
  rw [hps, qStr_strip_noop hk, parse_qStr hk]
  rfl

/-- Every cell the nutrient coercion produces is a decimal-representable
numeric cell. -/
theorem nutrientCoerce_decimal (cell : Cell) :
    ∃ v : ℚ, nutrientCoerce cell = Cell.q v ∧ DecimalRep v := by
  unfold nutrientCoerce
  cases hp : parseNumL (pyStripL (pyRstripCaretL (pyStr cell).data)) with
  | none =>
      refine ⟨-1, rfl, ?_⟩
      unfold DecimalRep
      have : ((-1 : ℚ)).den = 1 := rfl
      rw [this]
      decide
  | some w => exact ⟨w, rfl, parseNumL_decimalRep hp⟩

/-! ## C5: the second application of `clean` -/

theorem filter_mem_sublist {L l : List String} (hsub : l.Sublist L) (hnd : L.Nodup) :
    L.filter (fun c => decide (c ∈ l)) = l := by
  induction hsub with
  | slnil => rfl
  | @cons l' L' a hs ih =>
      have hnd' := (List.nodup_cons.mp hnd).2
      have hanotin : a ∉ L' := (List.nodup_cons.mp hnd).1
      have hanl : a ∉ l' := fun hal => hanotin (hs.subset hal)
      rw [List.filter_cons, if_neg (by simpa using hanl)]
      exact ih hnd'
  | @cons₂ l' L' a hs ih =>
      have hnd' := (List.nodup_cons.mp hnd).2
      have hanotin : a ∉ L' := (List.nodup_cons.mp hnd).1
      rw [List.filter_cons, if_pos (by simp)]
      congr 1
      rw [List.filter_congr (fun c hc => ?_), ih hnd']
      have hca : c ≠ a := fun he => hanotin (he ▸ hc)
      simp [List.mem_cons, hca]

theorem keepCols_split (cols : List String) :
    keepCols cols
      = (ID_COL ++ TEXT_COLS ++ NUTRIENT_COLS ++ TAG_COLS ++ FLAG_COLS).filter
          (fun c => decide (c ∈ cols))
        ++ ["label_is_anomaly"].filter (fun c => decide (c ∈ cols)) := by
  unfold keepCols
  rw [show COLS_TO_KEEP
      = (ID_COL ++ TEXT_COLS ++ NUTRIENT_COLS ++ TAG_COLS ++ FLAG_COLS)
        ++ ["label_is_anomaly"] from rfl,
    List.filter_append]

theorem outCols_sublist (cols : List String) : (outCols cols).Sublist COLS_TO_KEEP := by
  unfold outCols
  by_cases hl : "label_is_anomaly" ∈ keepCols cols
  · rw [if_pos hl]
    exact List.filter_sublist _
  · rw [if_neg hl]
    rw [show COLS_TO_KEEP
        = (ID_COL ++ TEXT_COLS ++ NUTRIENT_COLS ++ TAG_COLS ++ FLAG_COLS)
          ++ ["label_is_anomaly"] from rfl]
    refine List.Sublist.append ?_ (List.Sublist.refl _)
    rw [keepCols_split cols]
    by_cases hlin : "label_is_anomaly" ∈ cols
    · exact absurd (mem_keepCols.mpr ⟨by decide, hlin⟩) hl
    · rw [List.filter_cons, if_neg (by simpa using hlin), List.filter_nil,
        List.append_nil]
      exact List.filter_sublist _

theorem keepCols_outCols (cols : List String) :
    keepCols (outCols cols) = outCols cols := by
  unfold keepCols
  exact filter_mem_sublist (outCols_sublist cols) colsToKeep_nodup

theorem outCols_idem (cols : List String) : outCols (outCols cols) = outCols cols := by
  rw [outCols, keepCols_outCols, if_pos (label_mem_outCols cols)]

theorem getCell_relabel_ne {cols2 : List String} {o : Row} {c : String}
    (hc : c ≠ "label_is_anomaly") :
    getCell (relabelRow cols2 o) c = getCell o c :=
  getCell_map_keyupdate o _ _ c hc

theorem sortKey_relabel (cols2 : List String) (o : Row) :
    sortKey (relabelRow cols2 o) = sortKey o := by
  unfold sortKey
  rw [getCell_relabel_ne (by decide)]

theorem gtinPresent_relabel (cols2 : List String) (o : Row) :
    gtinPresent (relabelRow cols2 o) = gtinPresent o := by
  unfold gtinPresent
  rw [getCell_relabel_ne (by decide)]

theorem ingrRowOk_relabel (cols2 : List String) (o : Row) :
    ingrRowOk (relabelRow cols2 o) = ingrRowOk o := by
  unfold ingrRowOk
  rw [getCell_relabel_ne (by decide)]

theorem toStringDtype_idem (cell : Cell) :
    toStringDtype (toStringDtype cell) = toStringDtype cell := by
  cases cell <;> rfl

theorem cellF_second (cols : List String) (r : Row) (c : String) (hc : c ∈ outCols cols) :
    cellF (outCols cols) (cleanRow cols r) c
      = if c = "label_is_anomaly"
        then Cell.i (if rawAnomalyB (outCols cols) (cleanRow cols r) then 1 else 0)
        else getCell (cleanRow cols r) c := by
  rw [cellF]
  by_cases hl : c = "label_is_anomaly"
  · rw [if_pos hl, if_pos hl]
  · rw [if_neg hl, if_neg hl]
    have hcell : getCell (cleanRow cols r) c = cellF cols r c := getCell_cleanRow hc
    by_cases hn : c ∈ NUTRIENT_COLS
    · rw [if_pos hn, hcell, cellF, if_neg hl, if_pos hn]
      obtain ⟨w, hw, hdw⟩ := nutrientCoerce_decimal (getCell r c)
      rw [hw, nutrientCoerce_fixed hdw]
    · rw [if_neg hn]
      by_cases hb : c ∈ TAG_COLS ++ FLAG_COLS
      · rw [if_pos hb, hcell, cellF, if_neg hl, if_neg hn, if_pos hb]
        cases hx : pyBool (getCell r c)
        · have h1 : pyBool (Cell.b false) = false := by decide
          rw [h1]
        · have h1 : pyBool (Cell.b true) = true := by decide
          rw [h1]
      · rw [if_neg hb]
        by_cases hi : c ∈ ID_COL ++ TEXT_COLS
        · rw [if_pos hi, hcell, cellF, if_neg hl, if_neg hn, if_neg hb, if_pos hi,
            toStringDtype_idem]
        · rw [if_neg hi]

/-- On an already-cleaned row, the per-row pipeline only recomputes the
anomaly label; every other cell is a fixed point of its coercion. -/
theorem cleanRow_second (cols : List String) (r : Row) :
    cleanRow (outCols cols) (cleanRow cols r)
      = relabelRow (outCols cols) (cleanRow cols r) := by
  conv_lhs => rw [cleanRow_eq, outCols_idem]
  have hrhs : relabelRow (outCols cols) (cleanRow cols r)
      = (outCols cols).map (fun c =>
          (c, if c = "label_is_anomaly"
              then Cell.i (if rawAnomalyB (outCols cols) (cleanRow cols r) then 1 else 0)
              else cellF cols r c)) := by
    unfold relabelRow
    generalize Cell.i (if rawAnomalyB (outCols cols) (cleanRow cols r) then 1 else 0) = vv
    conv_lhs => rw [cleanRow_eq cols r]
    rw [map_entry_map_pairs _ _ (fun _ => vv) (fun c => c = "label_is_anomaly")]
  rw [hrhs]
  refine List.map_congr_left ?_
  intro c hc
  rw [cellF_second cols r c hc]
  by_cases hl : c = "label_is_anomaly"
  · rw [if_pos hl, if_pos hl]
  · rw [if_neg hl, if_neg hl, getCell_cleanRow hc]

theorem finalRows_pass {df : Table} {o : Row} (ho : o ∈ finalRows df) :
    gtinPresent o = true ∧
      ("ingredients_text" ∈ outCols df.cols → ingrRowOk o = true) := by
  have h2 := mem_ingrFiltered (mem_finalRows ho)
  have h3 := mem_gtinFiltered h2.1
  exact ⟨h3.2, h2.2⟩

theorem finalRows_row {df : Table} {o : Row} (ho : o ∈ finalRows df) :
    ∃ r ∈ df.rows, o = cleanRow df.cols r :=
  (mem_gtinFiltered (mem_ingrFiltered (mem_finalRows ho)).1).1

theorem dedupFirst_nodup_noop : ∀ (l : List Row) (seen : List Cell),
    l.Pairwise (fun o₁ o₂ => getCell o₁ "gtin" ≠ getCell o₂ "gtin") →
    (∀ o ∈ l, getCell o "gtin" ∉ seen) → dedupFirst l seen = l := by
  intro l
  induction l with
  | nil => intro seen _ _; rfl
  | cons r rs ih =>
      intro seen hpw hseen
      simp only [dedupFirst]
      rw [if_neg (hseen r (List.mem_cons_self r rs))]
      congr 1
      refine ih _ (List.pairwise_cons.mp hpw).2 ?_
      intro o ho hmem
      rcases List.mem_cons.mp hmem with he | hseen'
      · exact (List.pairwise_cons.mp hpw).1 o ho he.symm
      · exact hseen o (List.mem_cons_of_mem _ ho) hseen'

theorem clean_ok_counts {df : Table} {v : Bool} {res : CleanResult}
    (h : clean df v = Except.ok res) :
    res.removedNoGtin = (projectedRows df).length - (gtinFiltered df).length ∧
    res.removedEmptyIngredients
      = (gtinFiltered df).length - (ingrFiltered df).length ∧
    res.removedDuplicates = (ingrFiltered df).length - (finalRows df).length := by
  simp only [clean] at h
  split at h
  · cases h; exact ⟨rfl, rfl, rfl⟩
  · cases h

/-- C5, amended: applying `clean` to its own output succeeds, drops no rows,
and returns the same table except that the `label_is_anomaly` column is
recomputed from the already-coerced cells (so a label that was set only by a
nutrient caret — stripped by the first pass — reverts to 0). -/
theorem c5_idempotent_mod_label {df : Table} {v : Bool} {res : CleanResult}
    (h : clean df v = Except.ok res) :
    ∃ res', clean res.table v = Except.ok res' ∧
      res'.table.cols = res.table.cols ∧
      res'.table.rows = res.table.rows.map (relabelRow res.table.cols) ∧
      res'.table.rows.length = res.table.rows.length ∧
      res'.removedNoGtin = 0 ∧
      res'.removedEmptyIngredients = 0 ∧
      res'.removedDuplicates = 0 := by
  have htab := clean_ok_table h
  have hgin := clean_ok_gtin h
  have hcols2 : res.table.cols = outCols df.cols := by rw [htab]
  have hrows : res.table.rows = finalRows df := by rw [htab]
  have hout2 : outCols res.table.cols = res.table.cols := by
    rw [hcols2, outCols_idem]
  have hg2 : "gtin" ∈ outCols res.table.cols := by
    rw [hout2, hcols2]
    exact gtin_mem_outCols hgin
  have hproj : projectedRows res.table
      = res.table.rows.map (relabelRow res.table.cols) := by
    unfold projectedRows
    refine List.map_congr_left ?_
    intro o ho
    rw [hrows] at ho
    obtain ⟨r, hr, rfl⟩ := finalRows_row ho
    rw [hcols2]
    exact cleanRow_second df.cols r
  have hgf : gtinFiltered res.table
      = res.table.rows.map (relabelRow res.table.cols) := by
    unfold gtinFiltered
    rw [hproj]
    apply List.filter_eq_self.mpr
    intro o' ho'
    obtain ⟨o, ho, rfl⟩ := List.mem_map.mp ho'
    rw [gtinPresent_relabel]
    rw [hrows] at ho
    exact (finalRows_pass ho).1
  have hif : ingrFiltered res.table
      = res.table.rows.map (relabelRow res.table.cols) := by
    unfold ingrFiltered
    by_cases hm : "ingredients_text" ∈ outCols res.table.cols
    · rw [if_pos hm, hgf]
      apply List.filter_eq_self.mpr
      intro o' ho'
      obtain ⟨o, ho, rfl⟩ := List.mem_map.mp ho'
      rw [ingrRowOk_relabel]
      rw [hrows] at ho
      refine (finalRows_pass ho).2 ?_
      rw [hout2, hcols2] at hm
      exact hm
    · rw [if_neg hm]
      exact hgf
  have hsorted1 : List.Sorted rowLe (finalRows df) := by
    have hs : List.Sorted rowLe (sortedSurvivors df) :=
      List.sorted_insertionSort rowLe (ingrFiltered df)
    exact List.Pairwise.sublist (dedupFirst_sublist _ _) hs
  have hsorted2 : List.Sorted rowLe
      (res.table.rows.map (relabelRow res.table.cols)) := by
    rw [hrows]
    refine List.Pairwise.map _ ?_ hsorted1
    intro a b hab
    unfold rowLe
    rw [sortKey_relabel, sortKey_relabel]
    exact hab
  have hss : sortedSurvivors res.table
      = res.table.rows.map (relabelRow res.table.cols) := by
    unfold sortedSurvivors sortRows
    rw [hif]
    exact List.Sorted.insertionSort_eq hsorted2
  have hpw : (res.table.rows.map (relabelRow res.table.cols)).Pairwise
      (fun o₁ o₂ => getCell o₁ "gtin" ≠ getCell o₂ "gtin") := by
    rw [hrows]
    refine List.Pairwise.map _ ?_ (dedupFirst_pairwise (sortedSurvivors df) [])
    intro a b hab
    rw [getCell_relabel_ne (by decide), getCell_relabel_ne (by decide)]
    exact hab
  have hfr : finalRows res.table
      = res.table.rows.map (relabelRow res.table.cols) := by
    unfold finalRows
    rw [hss]
    exact dedupFirst_nodup_noop _ _ hpw (fun o _ => List.not_mem_nil _)
  obtain ⟨res', hres'⟩ : ∃ res', clean res.table v = Except.ok res' := by
    simp only [clean]
    rw [if_pos hg2]
    exact ⟨_, rfl⟩
  have htab' := clean_ok_table hres'
  have hcnt := clean_ok_counts hres'
  refine ⟨res', hres', ?_, ?_, ?_, ?_, ?_, ?_⟩
  · rw [htab']
    exact hout2
  · rw [htab']
    exact hfr
  · rw [htab']
    show (finalRows res.table).length = res.table.rows.length
    rw [hfr, List.length_map]
  · rw [hcnt.1, hproj, hgf]
    exact Nat.sub_self _
  · rw [hcnt.2.1, hgf, hif]
    exact Nat.sub_self _
  · rw [hcnt.2.2, hif, hfr]
    exact Nat.sub_self _

theorem c5_witness :
    clean dfC5 true = Except.ok (cleanOk dfC5) ∧
    ∃ res', clean (cleanOk dfC5).table true = Except.ok res' ∧
      res'.table.cols = (cleanOk dfC5).table.cols ∧
      res'.table.rows
        = (cleanOk dfC5).table.rows.map (relabelRow (cleanOk dfC5).table.cols) ∧
      res'.table.rows.length = (cleanOk dfC5).table.rows.length ∧
      res'.removedNoGtin = 0 ∧
      res'.removedEmptyIngredients = 0 ∧
      res'.removedDuplicates = 0 :=
  ⟨by decide, @c5_idempotent_mod_label dfC5 true (cleanOk dfC5) (by decide)⟩

/-- Counterexample to C5 as stated: on `dfC5` the only caret sits in the
nutrient column `calories`, so the first pass labels the row anomalous (`1`)
while stripping the caret; the second pass recomputes the label over the
already-stripped cells and flips it to `0`, so `clean (clean df)` is not
identical to `clean df`. -/
theorem c5_counterexample :
    getCell ((cleanOk dfC5).table.rows.headD []) "label_is_anomaly" = Cell.i 1 ∧
    getCell ((cleanOk (cleanOk dfC5).table).table.rows.headD [])
      "label_is_anomaly" = Cell.i 0 ∧
    (cleanOk (cleanOk dfC5).table).table ≠ (cleanOk dfC5).table := by decide
